import Mathlib

/-!
Verification of the curlgen request-conversion library (src/index.ts):
a shallow embedding of the tokenizer, the curl command parser, the code
generators, the fetch/axios snippet extractors, the Postman collection
importer and the format detector, with theorems checking the spec's
claims.  JavaScript strings are modelled as lists of characters, and
JavaScript truthiness of optional string fields (`if (x)`) is modelled
explicitly as "present and non-empty".
-/

set_option autoImplicit false

abbrev Str := List Char

def str (s : String) : Str := s.data

/-- Apostrophe character (U+0027), written via its code point. -/
def squote : Char := Char.ofNat 39

/-- ASCII fragment of the JavaScript whitespace class (`\s`, `trim`). -/
def isJsSpace (c : Char) : Bool :=
  c = ' ' || c = '\t' || c = '\n' || c = '\r' || c.toNat = 11 || c.toNat = 12

/-- JavaScript `String.prototype.trim` (ASCII whitespace). -/
def jsTrim (s : Str) : Str :=
  ((s.dropWhile isJsSpace).reverse.dropWhile isJsSpace).reverse

def isLowerA (c : Char) : Bool := 97 ≤ c.toNat && c.toNat ≤ 122

def isUpperA (c : Char) : Bool := 65 ≤ c.toNat && c.toNat ≤ 90

/-- Character-wise model of `toUpperCase` (ASCII). -/
def chUp (c : Char) : Char :=
  if isLowerA c then Char.ofNat (c.toNat - 32) else c

/-- Character-wise model of `toLowerCase` (ASCII). -/
def chLow (c : Char) : Char :=
  if isUpperA c then Char.ofNat (c.toNat + 32) else c

def jsUp (s : Str) : Str := s.map chUp

def jsLow (s : Str) : Str := s.map chLow

/-- `p` is an initial segment of `s` (JavaScript `startsWith`). -/
def leadsWith : Str → Str → Bool
  | [], _ => true
  | _ :: _, [] => false
  | p :: ps, c :: cs => p = c && leadsWith ps cs

/-- `pat` occurs as a contiguous substring of `s` (JavaScript `includes`). -/
def hasSub (pat : Str) : Str → Bool
  | [] => leadsWith pat []
  | c :: rest => leadsWith pat (c :: rest) || hasSub pat rest

/-- JavaScript object property write `o[k] = v`: replace in place if the
key exists, else append (insertion order preserved). -/
def jsInsert {α : Type} (k : Str) (v : α) : List (Str × α) → List (Str × α)
  | [] => [(k, v)]
  | (k0, v0) :: rest =>
      if k0 = k then (k0, v) :: rest else (k0, v0) :: jsInsert k v rest

/-- JavaScript object property read `o[k]`. -/
def jsGet {α : Type} (k : Str) (l : List (Str × α)) : Option α :=
  (l.find? (fun e => e.1 = k)).map (fun e => e.2)

/-- JavaScript `s.split(':')`: split at every colon. -/
def splitColon : Str → List Str
  | [] => [[]]
  | c :: rest =>
      if c = ':' then [] :: splitColon rest
      else
        match splitColon rest with
        | p :: ps => (c :: p) :: ps
        | [] => [[c]]

/-- `Array.prototype.join` with a separator. -/
def joinSep (sep : Str) : List Str → Str
  | [] => []
  | [x] => x
  | x :: xs => x ++ sep ++ joinSep sep xs

/-- `s.replace(/'/g, "\\'")`: backslash-escape every apostrophe. -/
def escSq (s : Str) : Str :=
  s.foldr (fun c acc => if c = squote then '\\' :: squote :: acc else c :: acc) []

/-! ## Tokenizer (`tokenize`, src/index.ts lines 167-214) -/

def tokAux : Str → Str → Bool → Bool → Bool → List Str
  | [], cur, _, _, _ => if cur = [] then [] else [cur]
  | ch :: rest, cur, inS, inD, esc =>
      if esc then tokAux rest (cur ++ [ch]) inS inD false
      else if ch = '\\' && !inS then tokAux rest cur inS inD true
      else if ch = squote && !inD then tokAux rest cur (!inS) inD false
      else if ch = '"' && !inS then tokAux rest cur inS (!inD) false
      else if ch = ' ' && !inS && !inD then
        (if cur = [] then tokAux rest [] inS inD false
         else cur :: tokAux rest [] inS inD false)
      else tokAux rest (cur ++ [ch]) inS inD false

def tokenize (s : Str) : List Str := tokAux s [] false false false

/-! ## Curl command parser (`parseCurl`, src/index.ts lines 34-165) -/

/-- The canonical request record (`ParsedRequest` interface). -/
structure ParsedRequest where
  method : Str
  url : Str
  headers : List (Str × Str)
  body : Option Str
  contentType : Option Str
  auth : Option (Str × Str)
  followRedirects : Bool
  insecure : Bool
deriving DecidableEq

/-- The freshly initialised record every parser starts from. -/
def blankReq : ParsedRequest :=
  { method := str ("GET"), url := [], headers := [], body := none,
    contentType := none, auth := none, followRedirects := true, insecure := false }

/-- Parser state: the record under construction plus the
`explicitMethod` flag. -/
structure PState where
  req : ParsedRequest
  explicitMethod : Bool
deriving DecidableEq

theorem lenDropWhile_le (p : Char → Bool) (l : List Char) :
    (l.dropWhile p).length ≤ l.length := by
  induction l with
  | nil => simp [List.dropWhile]
  | cons c rest ih =>
      by_cases h : p c
      · simp only [List.dropWhile_cons, h, if_true, List.length_cons]
        omega
      · simp [List.dropWhile_cons, h]

/-- Scanner for `normBackslash`.  The flag records that the scan is
inside the greedy `\s*` tail of a match, whose whitespace is dropped;
a backslash-newline pair is replaced by one space and starts such a
tail; everything else is copied. -/
def normBS : Str → Bool → Str
  | [], _ => []
  | '\\' :: '\n' :: rest2, _ => ' ' :: normBS rest2 true
  | c :: rest, skip =>
      if skip && isJsSpace c then normBS rest true
      else c :: normBS rest false

/-- `input.replace(/\\\n\s*/g, ' ')`: collapse backslash-newline line
continuations (and any following whitespace) to a single space. -/
def normBackslash (s : Str) : Str := normBS s false

/-- `normalized.replace(/^curl\s+/, '')`: strip a leading `curl` token
followed by at least one whitespace character. -/
def stripCurl (s : Str) : Str :=
  if leadsWith (str ("curl")) s
      && (match s.drop 4 with | c :: _ => isJsSpace c | [] => false) then
    (s.drop 4).dropWhile isJsSpace
  else s

def ctFormUrl : Str := str ("application/x-www-form-urlencoded")

/-- The token-walking loop of `parseCurl` (the `for` over `tokens`).
In the source, a valued flag whose following token is falsy (only the
empty string is a falsy token) neither fires nor advances `i`, so the
empty token is itself visited next and falls through every branch as a
no-op (it equals no flag spelling, and starts with neither `-`, `http`
nor `/`).  Here that empty token is stepped over directly, which yields
the same state and keeps the recursion structural. -/
def pcLoop : List Str → PState → PState
  | [], st => st
  | t :: rest, st =>
      if t = str ("-X") ∨ t = str ("--request") then
        match rest with
        | n :: rest2 =>
            if n ≠ [] then
              let r2 := { st.req with method := jsUp n }
              pcLoop rest2 { st with req := r2, explicitMethod := true }
            else pcLoop rest2 st
        | [] => st
      else if t = str ("-H") ∨ t = str ("--header") then
        match rest with
        | n :: rest2 =>
            if n ≠ [] then
              let pre := n.takeWhile (fun c => c ≠ ':')
              let post := n.dropWhile (fun c => c ≠ ':')
              let st2 :=
                if pre ≠ [] ∧ post ≠ [] then
                  let k := jsTrim pre
                  let v := jsTrim post.tail
                  let ct := if jsLow k = str ("content-type") then some v
                            else st.req.contentType
                  let r2 := { st.req with headers := jsInsert k v st.req.headers,
                                          contentType := ct }
                  { st with req := r2 }
                else st
              pcLoop rest2 st2
            else pcLoop rest2 st
        | [] => st
      else if t = str ("-d") ∨ t = str ("--data") ∨ t = str ("--data-raw")
          ∨ t = str ("--data-binary") then
        match rest with
        | n :: rest2 =>
            if n ≠ [] then
              let m := if st.explicitMethod then st.req.method else str ("POST")
              let r2 := { st.req with body := some n, method := m }
              pcLoop rest2 { st with req := r2 }
            else pcLoop rest2 st
        | [] => st
      else if t = str ("--data-urlencode") then
        match rest with
        | n :: rest2 =>
            if n ≠ [] then
              let newBody := match st.req.body with
                | some b => if b ≠ [] then b ++ str ("&") ++ n else n
                | none => n
              let m := if st.explicitMethod then st.req.method else str ("POST")
              let ctAbsent : Bool := match st.req.contentType with
                | some ct => ct.isEmpty
                | none => true
              let hs := jsInsert (str ("Content-Type")) ctFormUrl st.req.headers
              let rA := { st.req with body := some newBody, method := m,
                                      contentType := some ctFormUrl, headers := hs }
              let rB := { st.req with body := some newBody, method := m }
              let r2 := if ctAbsent then rA else rB
              pcLoop rest2 { st with req := r2 }
            else pcLoop rest2 st
        | [] => st
      else if t = str ("-u") ∨ t = str ("--user") then
        match rest with
        | n :: rest2 =>
            if n ≠ [] then
              let parts := splitColon n
              let user := match parts with | u :: _ => u | [] => []
              let pass := match parts with | _ :: p :: _ => p | _ => []
              pcLoop rest2 { st with req := { st.req with auth := some (user, pass) } }
            else pcLoop rest2 st
        | [] => st
      else if t = str ("-L") ∨ t = str ("--location") then
        pcLoop rest { st with req := { st.req with followRedirects := true } }
      else if t = str ("-k") ∨ t = str ("--insecure") then
        pcLoop rest { st with req := { st.req with insecure := true } }
      else if t = str ("-A") ∨ t = str ("--user-agent") then
        match rest with
        | n :: rest2 =>
            if n ≠ [] then
              let r2 := { st.req with headers := jsInsert (str ("User-Agent")) n st.req.headers }
              pcLoop rest2 { st with req := r2 }
            else pcLoop rest2 st
        | [] => st
      else if t = str ("-b") ∨ t = str ("--cookie") then
        match rest with
        | n :: rest2 =>
            if n ≠ [] then
              let r2 := { st.req with headers := jsInsert (str ("Cookie")) n st.req.headers }
              pcLoop rest2 { st with req := r2 }
            else pcLoop rest2 st
        | [] => st
      else if t = str ("-e") ∨ t = str ("--referer") then
        match rest with
        | n :: rest2 =>
            if n ≠ [] then
              let r2 := { st.req with headers := jsInsert (str ("Referer")) n st.req.headers }
              pcLoop rest2 { st with req := r2 }
            else pcLoop rest2 st
        | [] => st
      else if t = str ("--compressed") then
        let absent : Bool := match jsGet (str ("Accept-Encoding")) st.req.headers with
          | some v => v.isEmpty
          | none => true
        if absent then
          let hs := jsInsert (str ("Accept-Encoding")) (str ("gzip, deflate, br")) st.req.headers
          pcLoop rest { st with req := { st.req with headers := hs } }
        else pcLoop rest st
      else
        if ¬ leadsWith (str ("-")) t
            ∧ (leadsWith (str ("http")) t ∨ leadsWith (str ("/")) t) then
          pcLoop rest { st with req := { st.req with url := t } }
        else pcLoop rest st


def parseCurl (input : Str) : ParsedRequest :=
  (pcLoop (tokenize (stripCurl (jsTrim (normBackslash input))))
    { req := blankReq, explicitMethod := false }).req

/-! ## JSON (model of the platform `JSON.parse` used by the program)

The program observes `JSON.parse` only through (a) success/failure
(generators, detector) and (b) the truthiness of the top-level `info`
and `item` members (detector).  The grammar below is the JSON text
grammar of ECMA-404 as accepted by `JSON.parse`; string contents are
decoded (escapes resolved), and of a number only its zero-ness is kept,
which is all that JavaScript truthiness of the parsed value can see. -/

inductive JVal where
  | jnull
  | jbool (b : Bool)
  | jnum (isZero : Bool)
  | jstr (s : Str)
  | jarr (elems : List JVal)
  | jobj (fields : List (Str × JVal))

/-- JSON whitespace (space, tab, line feed, carriage return). -/
def isJsonWs (c : Char) : Bool :=
  c = ' ' || c = '\t' || c = '\n' || c = '\r'

def skipWs (s : Str) : Str := s.dropWhile isJsonWs

def isDigitCh (c : Char) : Bool := 48 ≤ c.toNat && c.toNat ≤ 57

def hexVal (c : Char) : Option Nat :=
  if isDigitCh c then some (c.toNat - 48)
  else if 'a' ≤ c && c ≤ 'f' then some (c.toNat - 87)
  else if 'A' ≤ c && c ≤ 'F' then some (c.toNat - 70)
  else none

/-- Four hex digits of a `\u` escape. -/
def hex4 : Str → Option (Nat × Str)
  | a :: b :: c :: d :: rest =>
      match hexVal a, hexVal b, hexVal c, hexVal d with
      | some x, some y, some z, some w => some ((x * 16 + y) * 16 * 16 + z * 16 + w, rest)
      | _, _, _, _ => none
  | _ => none

/-- JSON string body after the opening quote: returns the decoded
content and the rest after the closing quote.  A lone surrogate escape
is mapped through `Char.ofNat`'s fallback; only emptiness and key
equality with ASCII names are ever observed. -/
def jStrBody (fuel : Nat) : Str → Option (Str × Str)
  | [] => none
  | c :: rest =>
      match fuel with
      | 0 => none
      | fuel2 + 1 =>
          if c = '"' then some ([], rest)
          else if c = '\\' then
            match rest with
            | [] => none
            | e :: rest2 =>
                let dec : Option (Char × Str) :=
                  if e = '"' then some ('"', rest2)
                  else if e = '\\' then some ('\\', rest2)
                  else if e = '/' then some ('/', rest2)
                  else if e = 'b' then some (Char.ofNat 8, rest2)
                  else if e = 'f' then some (Char.ofNat 12, rest2)
                  else if e = 'n' then some ('\n', rest2)
                  else if e = 'r' then some ('\r', rest2)
                  else if e = 't' then some ('\t', rest2)
                  else if e = 'u' then
                    match hex4 rest2 with
                    | some (n, rest3) => some (Char.ofNat n, rest3)
                    | none => none
                  else none
                match dec with
                | some (d, r) =>
                    match jStrBody fuel2 r with
                    | some (cs, r2) => some (d :: cs, r2)
                    | none => none
                | none => none
          else if c.toNat < 32 then none
          else
            match jStrBody fuel2 rest with
            | some (cs, r2) => some (c :: cs, r2)
            | none => none

/-- JSON number, per the ECMA-404 grammar; only zero-ness is kept. -/
def jNum : Str → Option (Bool × Str)
  | s =>
      let s1 := match s with | c :: r => if c = '-' then r else s | [] => s
      let intPart : Option (Str × Str) :=
        match s1 with
        | c :: r =>
            if c = '0' then some ([c], r)
            else if isDigitCh c then some (c :: r.takeWhile isDigitCh, r.dropWhile isDigitCh)
            else none
        | [] => none
      match intPart with
      | none => none
      | some (ds, r2) =>
          let fracR : Option (Str × Str) :=
            match r2 with
            | c :: r3 =>
                if c = '.' then
                  match r3.takeWhile isDigitCh with
                  | [] => none
                  | fs => some (fs, r3.dropWhile isDigitCh)
                else some ([], r2)
            | [] => some ([], r2)
          match fracR with
          | none => none
          | some (fs, r4) =>
              let expR : Option Str :=
                match r4 with
                | c :: r5 =>
                    if c = 'e' ∨ c = 'E' then
                      let r6 := match r5 with
                        | d :: r7 => if d = '+' ∨ d = '-' then r7 else r5
                        | [] => r5
                      match r6.takeWhile isDigitCh with
                      | [] => none
                      | _ => some (r6.dropWhile isDigitCh)
                    else some r4
                | [] => some r4
              match expR with
              | none => none
              | some r8 => some ((ds ++ fs).all (fun c => c = '0'), r8)

mutual

/-- JSON value parser (recursive descent, fuel-bounded; every
recursive step consumes input, so `jparse` passes ample fuel). -/
def jVal (fuel : Nat) (s : Str) : Option (JVal × Str) :=
  match fuel with
  | 0 => none
  | fuel2 + 1 =>
      match s with
      | [] => none
      | c :: rest =>
          if c = '"' then
            match jStrBody (rest.length + 1) rest with
            | some (cs, r) => some (JVal.jstr cs, r)
            | none => none
          else if c = '[' then
            let r1 := skipWs rest
            match r1 with
            | ']' :: r2 => some (JVal.jarr [], r2)
            | _ => jArrElems fuel2 r1 []
          else if c = '{' then
            let r1 := skipWs rest
            match r1 with
            | '}' :: r2 => some (JVal.jobj [], r2)
            | _ => jObjMembers fuel2 r1 []
          else if leadsWith (str ("true")) s then some (JVal.jbool true, s.drop 4)
          else if leadsWith (str ("false")) s then some (JVal.jbool false, s.drop 5)
          else if leadsWith (str ("null")) s then some (JVal.jnull, s.drop 4)
          else
            match jNum s with
            | some (z, r) => some (JVal.jnum z, r)
            | none => none

/-- Array elements: value, then `,` more elements or `]`. -/
def jArrElems (fuel : Nat) (s : Str) (acc : List JVal) : Option (JVal × Str) :=
  match fuel with
  | 0 => none
  | fuel2 + 1 =>
      match jVal fuel2 (skipWs s) with
      | none => none
      | some (v, r) =>
          match skipWs r with
          | ',' :: r2 => jArrElems fuel2 r2 (acc ++ [v])
          | ']' :: r2 => some (JVal.jarr (acc ++ [v]), r2)
          | _ => none

/-- Object members: `"key" : value`, then `,` more members or `}`. -/
def jObjMembers (fuel : Nat) (s : Str) (acc : List (Str × JVal)) : Option (JVal × Str) :=
  match fuel with
  | 0 => none
  | fuel2 + 1 =>
      match skipWs s with
      | '"' :: r1 =>
          match jStrBody (r1.length + 1) r1 with
          | none => none
          | some (k, r2) =>
              match skipWs r2 with
              | ':' :: r3 =>
                  match jVal fuel2 (skipWs r3) with
                  | none => none
                  | some (v, r4) =>
                      match skipWs r4 with
                      | ',' :: r5 => jObjMembers fuel2 r5 (jsInsert k v acc)
                      | '}' :: r5 => some (JVal.jobj (jsInsert k v acc), r5)
                      | _ => none
              | _ => none
      | _ => none

end

/-- `JSON.parse`: whitespace, one value, whitespace, end of input. -/
def jparse (s : Str) : Option JVal :=
  match jVal (2 * s.length + 4) (skipWs s) with
  | some (v, r) => if skipWs r = [] then some v else none
  | none => none

/-- `JSON.parse(s)` succeeds (the generators' try/catch test). -/
def jsonValid (s : Str) : Bool := (jparse s).isSome

/-- JavaScript truthiness of a parsed JSON value. -/
def jTruthy : JVal → Bool
  | JVal.jnull => false
  | JVal.jbool b => b
  | JVal.jnum z => !z
  | JVal.jstr s => !s.isEmpty
  | JVal.jarr _ => true
  | JVal.jobj _ => true

/-- Property access `v.k` on a parsed JSON value (undefined ↦ `none`). -/
def jField (v : JVal) (k : Str) : Option JVal :=
  match v with
  | JVal.jobj fs => jsGet k fs
  | _ => none

/-! ## Code generators (`toFetch`, `toAxios`, `toCurl`,
src/index.ts lines 218-347) -/

def nl : Str := str ("\n")

/-- Truthiness of `req.body` (`if (req.body)`). -/
def bodyTruthy (req : ParsedRequest) : Bool :=
  match req.body with
  | some b => !b.isEmpty
  | none => false

/-- The `headers` object `toFetch` iterates over: the record's headers
plus, when auth is present, an `Authorization` placeholder (its stored
value is never printed; the loop special-cases the key). -/
def fetchHeaders (req : ParsedRequest) : List (Str × Str) :=
  if req.auth.isSome then
    jsInsert (str ("Authorization")) (str ("$\x7b\x60Basic $\x7bcredentials\x7d\x60\x7d")) req.headers
  else req.headers

/-- One fetch header line. -/
def fetchHeaderLine (req : ParsedRequest) (kv : Str × Str) : Str :=
  if kv.1 = str ("Authorization") ∧ req.auth.isSome then
    str ("    \x27Authorization\x27: \x60Basic $\x7bcredentials\x7d\x60,")
  else
    str ("    \x27") ++ kv.1 ++ str ("\x27: \x27") ++ escSq kv.2 ++ str ("\x27,")

/-- The `lines` array built by `toFetch`. -/
def toFetchLines (req : ParsedRequest) : List Str :=
  let hasOptions := req.method ≠ str ("GET") ∨ req.headers ≠ []
      ∨ bodyTruthy req = true ∨ req.auth.isSome
  let credLines : List Str :=
    match req.auth with
    | some (u, p) =>
        [str ("const credentials = btoa(\x27") ++ u ++ str (":") ++ p ++ str ("\x27);"), []]
    | none => []
  let mainLines : List Str :=
    if ¬ hasOptions then
      [str ("const response = await fetch(\x27") ++ req.url ++ str ("\x27);")]
    else
      let hs := fetchHeaders req
      let headerLines : List Str :=
        if hs ≠ [] then
          [str ("  headers: \x7b")] ++ hs.map (fetchHeaderLine req) ++ [str ("  \x7d,")]
        else []
      let bodyLines : List Str :=
        match req.body with
        | some b =>
            if b ≠ [] then
              if jsonValid b then
                [str ("  body: JSON.stringify(") ++ b ++ str ("),")]
              else
                [str ("  body: \x27") ++ escSq b ++ str ("\x27,")]
            else []
        | none => []
      [str ("const response = await fetch(\x27") ++ req.url ++ str ("\x27, \x7b"),
       str ("  method: \x27") ++ req.method ++ str ("\x27,")]
        ++ headerLines ++ bodyLines ++ [str ("\x7d);")]
  credLines ++ mainLines
    ++ [[], str ("const data = await response.json();"), str ("console.log(data);")]

def toFetch (req : ParsedRequest) : Str := joinSep nl (toFetchLines req)

/-- The `config` array built by `toAxios` (the non-shorthand branch). -/
def toAxiosConfig (req : ParsedRequest) : List Str :=
  let methodUrl :=
    [str ("  method: \x27") ++ jsLow req.method ++ str ("\x27,"),
     str ("  url: \x27") ++ req.url ++ str ("\x27,")]
  let headerLines : List Str :=
    if req.headers ≠ [] then
      [str ("  headers: \x7b")]
        ++ req.headers.map (fun kv =>
            str ("    \x27") ++ kv.1 ++ str ("\x27: \x27") ++ escSq kv.2 ++ str ("\x27,"))
        ++ [str ("  \x7d,")]
    else []
  let authLines : List Str :=
    match req.auth with
    | some (u, p) =>
        [str ("  auth: \x7b"),
         str ("    username: \x27") ++ u ++ str ("\x27,"),
         str ("    password: \x27") ++ p ++ str ("\x27,"),
         str ("  \x7d,")]
    | none => []
  let dataLines : List Str :=
    match req.body with
    | some b =>
        if b ≠ [] then
          if jsonValid b then [str ("  data: ") ++ b ++ str (",")]
          else [str ("  data: \x27") ++ escSq b ++ str ("\x27,")]
        else []
    | none => []
  methodUrl ++ headerLines ++ authLines ++ dataLines

/-- The full `toAxios` output. -/
def toAxios (req : ParsedRequest) : Str :=
  let importLines := [str ("import axios from \x27axios\x27;"), []]
  if req.method = str ("GET") ∧ bodyTruthy req = false ∧ req.headers = []
      ∧ req.auth = none then
    joinSep nl (importLines
      ++ [str ("const \x7b data \x7d = await axios.get(\x27") ++ req.url ++ str ("\x27);"),
          str ("console.log(data);")])
  else
    joinSep nl (importLines
      ++ [str ("const \x7b data \x7d = await axios(\x7b"),
          joinSep nl (toAxiosConfig req),
          str ("\x7d);"), [],
          str ("console.log(data);")])

/-- The `toCurl` shell-command generator. -/
def toCurl (req : ParsedRequest) : Str :=
  let parts : List Str :=
    [str ("curl")]
      ++ (if req.method ≠ str ("GET") then [str ("-X ") ++ req.method] else [])
      ++ [[squote] ++ req.url ++ [squote]]
      ++ req.headers.map (fun kv =>
          str ("-H ") ++ [squote] ++ kv.1 ++ str (": ") ++ kv.2 ++ [squote])
      ++ (match req.auth with
          | some (u, p) => [str ("-u ") ++ [squote] ++ u ++ str (":") ++ p ++ [squote]]
          | none => [])
      ++ (match req.body with
          | some b => if b ≠ [] then [str ("-d ") ++ [squote] ++ b ++ [squote]] else []
          | none => [])
      ++ (if req.insecure then [str ("-k")] else [])
  joinSep (str (" \\\n  ")) parts

/-! ## Format detector (`detectType`, src/index.ts lines 540-555) -/

inductive InputType where
  | curl
  | fetch
  | axios
  | postman
  | unknown
deriving DecidableEq

def detectType (input : Str) : InputType :=
  let t := jsTrim input
  if leadsWith (str ("curl ")) t || leadsWith (str ("curl\n")) t then InputType.curl
  else
    let isPostman : Bool :=
      match jparse t with
      | some v =>
          ((jField v (str ("info"))).map jTruthy).getD false
            && ((jField v (str ("item"))).map jTruthy).getD false
      | none => false
    if isPostman then InputType.postman
    else if hasSub (str ("fetch(")) t || hasSub (str ("fetch (")) t then InputType.fetch
    else if hasSub (str ("axios")) t then InputType.axios
    else InputType.unknown

/-! ## Snippet extractors (`parseFetchCode`, `parseAxiosCode`,
src/index.ts lines 351-442)

Each regular expression of the source is modelled by a matcher that
tries the pattern at one position; `findFirst` tries every position
left to right, which is exactly the leftmost-match semantics of
`String.prototype.match` for these patterns (their character classes
are complements of the delimiters that follow, so no backtracking can
produce a different capture at a given start position). -/

def backtick : Char := Char.ofNat 96

def lbrace : Char := Char.ofNat 123

def rbrace : Char := Char.ofNat 125

/-- The regex class `['"`]`. -/
def isQuoteCh (c : Char) : Bool := c = squote || c = '"' || c = backtick

/-- The regex class `\w` (ASCII). -/
def isWordCh (c : Char) : Bool := isLowerA c || isUpperA c || isDigitCh c || c = '_'

/-- Consume a literal. -/
def stripPre : Str → Str → Option Str
  | [], s => some s
  | _ :: _, [] => none
  | p :: ps, c :: cs => if p = c then stripPre ps cs else none

/-- Match `['"`]([^'"`]+)['"`]` at this position. -/
def takeQuoted : Str → Option (Str × Str)
  | [] => none
  | c :: rest =>
      if isQuoteCh c then
        match rest.takeWhile (fun d => !isQuoteCh d), rest.dropWhile (fun d => !isQuoteCh d) with
        | [], _ => none
        | cap, _ :: rest2 => some (cap, rest2)
        | _, [] => none
      else none

/-- Match `['"`](\w+)['"`]` at this position: the `\w+` capture is one
word character followed by the maximal word-character run. -/
def takeWordQ : Str → Option Str
  | [] => none
  | c :: rest =>
      if isQuoteCh c then
        match rest with
        | d :: rest2 =>
            if isWordCh d then
              match rest2.dropWhile isWordCh with
              | e :: _ => if isQuoteCh e then some (d :: rest2.takeWhile isWordCh) else none
              | [] => none
            else none
        | [] => none
      else none

/-- Try a positional matcher at every position, left to right
(leftmost match). -/
def findFirst {α : Type} (p : Str → Option α) : Str → Option α
  | [] => p []
  | c :: rest =>
      match p (c :: rest) with
      | some r => some r
      | none => findFirst p rest

/-- Match `lit\s*:\s*['"`]([^'"`]+)['"`]` at this position. -/
def keyQuotedAt (lit : String) (s : Str) : Option Str :=
  match stripPre (str lit) s with
  | none => none
  | some s1 =>
      match s1.dropWhile isJsSpace with
      | ':' :: s3 => (takeQuoted (s3.dropWhile isJsSpace)).map (fun p => p.1)
      | _ => none

/-- Match `lit\s*\(\s*['"`]([^'"`]+)['"`]` at this position
(`fetch(...)`, `axios.get(...)`, `axios.post(...)`). -/
def callQuotedAt (lit : String) (s : Str) : Option Str :=
  match stripPre (str lit) s with
  | none => none
  | some s1 =>
      match s1.dropWhile isJsSpace with
      | '(' :: s3 => (takeQuoted (s3.dropWhile isJsSpace)).map (fun p => p.1)
      | _ => none

/-- Match `lit\s*:\s*\{([^}]+)\}` at this position
(`headers: {...}`, `auth: {...}`). -/
def keyBraceAt (lit : String) (s : Str) : Option Str :=
  match stripPre (str lit) s with
  | none => none
  | some s1 =>
      match s1.dropWhile isJsSpace with
      | ':' :: s3 =>
          match s3.dropWhile isJsSpace with
          | c :: s4 =>
              if c = lbrace then
                match s4.takeWhile (fun d => d ≠ rbrace), s4.dropWhile (fun d => d ≠ rbrace) with
                | [], _ => none
                | cap, _ :: _ => some cap
                | _, [] => none
              else none
          | [] => none
      | _ => none

/-- Match `method\s*:\s*['"`](\w+)['"`]` at this position. -/
def methodAt (s : Str) : Option Str :=
  match stripPre (str ("method")) s with
  | none => none
  | some s1 =>
      match s1.dropWhile isJsSpace with
      | ':' :: s3 => takeWordQ (s3.dropWhile isJsSpace)
      | _ => none

/-- Match `body\s*:\s*JSON\.stringify\s*\(([^)]+)\)` at this position. -/
def bodyJsonAt (s : Str) : Option Str :=
  match stripPre (str ("body")) s with
  | none => none
  | some s1 =>
      match s1.dropWhile isJsSpace with
      | ':' :: s3 =>
          match stripPre (str ("JSON.stringify")) (s3.dropWhile isJsSpace) with
          | none => none
          | some s5 =>
              match s5.dropWhile isJsSpace with
              | '(' :: s6 =>
                  match s6.takeWhile (fun d => d ≠ ')'), s6.dropWhile (fun d => d ≠ ')') with
                  | [], _ => none
                  | cap, _ :: _ => some cap
                  | _, [] => none
              | _ => none
      | _ => none

/-- Match `data\s*:\s*(['"`]([^'"`]+)['"`]|\{[^}]+\})` at this
position; the string alternative yields the inner capture, the object
alternative yields the whole brace-delimited text
(`dataMatch[2] || dataMatch[1]`). -/
def axDataAt (s : Str) : Option Str :=
  match stripPre (str ("data")) s with
  | none => none
  | some s1 =>
      match s1.dropWhile isJsSpace with
      | ':' :: s3 =>
          let s4 := s3.dropWhile isJsSpace
          match takeQuoted s4 with
          | some (cap, _) => some cap
          | none =>
              match s4 with
              | c :: s5 =>
                  if c = lbrace then
                    match s5.takeWhile (fun d => d ≠ rbrace), s5.dropWhile (fun d => d ≠ rbrace) with
                    | [], _ => none
                    | cap, _ :: _ => some (lbrace :: (cap ++ [rbrace]))
                    | _, [] => none
                  else none
              | [] => none
      | _ => none

/-- One `['"`]([^'"`]+)['"`]\s*:\s*['"`]([^'"`]+)['"`]` match at this
position (a header entry), returning key, value and the rest. -/
def pairAt (s : Str) : Option (Str × Str × Str) :=
  match takeQuoted s with
  | none => none
  | some (k, s1) =>
      match s1.dropWhile isJsSpace with
      | ':' :: s3 =>
          match takeQuoted (s3.dropWhile isJsSpace) with
          | some (v, s4) => some (k, v, s4)
          | none => none
      | _ => none

/-- `matchAll` of the header-entry pattern: scan left to right,
resuming after each match.  Fuel bounds the scan; every step consumes
at least one character so `length + 1` suffices. -/
def allPairsF : Nat → Str → List (Str × Str)
  | 0, _ => []
  | _ + 1, [] => []
  | fuel + 1, c :: rest =>
      match pairAt (c :: rest) with
      | some (k, v, after) => (k, v) :: allPairsF fuel after
      | none => allPairsF fuel rest

def allPairs (s : Str) : List (Str × Str) := allPairsF (s.length + 1) s

/-- `parseFetchCode` (src/index.ts lines 351-387). -/
def parseFetchCode (code : Str) : ParsedRequest :=
  let r1 := match findFirst (callQuotedAt "fetch") code with
    | some u => { blankReq with url := u }
    | none => blankReq
  let r2 := match findFirst methodAt code with
    | some m => { r1 with method := jsUp m }
    | none => r1
  let r3 := match findFirst (keyBraceAt "headers") code with
    | some block =>
        { r2 with headers := (allPairs block).foldl (fun h kv => jsInsert kv.1 kv.2 h) r2.headers }
    | none => r2
  match findFirst bodyJsonAt code with
  | some j => { r3 with body := some (jsTrim j) }
  | none =>
      match findFirst (keyQuotedAt "body") code with
      | some b => { r3 with body := some b }
      | none => r3

/-- `parseAxiosCode` (src/index.ts lines 389-442). -/
def parseAxiosCode (code : Str) : ParsedRequest :=
  match findFirst (callQuotedAt "axios.get") code with
  | some u => { blankReq with url := u }
  | none =>
      let r1 := match findFirst (callQuotedAt "axios.post") code with
        | some u => { blankReq with url := u, method := str ("POST") }
        | none => blankReq
      let r2 := match findFirst (keyQuotedAt "url") code with
        | some u => { r1 with url := u }
        | none => r1
      let r3 := match findFirst methodAt code with
        | some m => { r2 with method := jsUp m }
        | none => r2
      let r4 := match findFirst (keyBraceAt "headers") code with
        | some block =>
            { r3 with headers := (allPairs block).foldl (fun h kv => jsInsert kv.1 kv.2 h) r3.headers }
        | none => r3
      let r5 := match findFirst (keyBraceAt "auth") code with
        | some block =>
            match findFirst (keyQuotedAt "username") block with
            | some u =>
                { r4 with auth := some (u, (findFirst (keyQuotedAt "password") block).getD []) }
            | none => r4
        | none => r4
      match findFirst axDataAt code with
      | some b => { r5 with body := some b }
      | none => r5

/-! ## Postman collection importer (`parsePostmanCollection`,
src/index.ts lines 446-534)

The importer first runs the platform `JSON.parse` and then walks the
decoded structure.  The decoded structure is modelled directly by the
types below (the `PostmanItem` interface); absent-or-null fields are
`none`, and JavaScript truthiness of the present values is modelled
where the source tests them (`item.item`, `item.request`, `req.url.raw`
and the like). -/

/-- `request.url`: either a plain string or a URL object. -/
inductive PUrl where
  | pstr (s : Str)
  | pobj (raw : Option Str) (protocol : Option Str)
      (host : Option (List Str)) (path : Option (List Str))
deriving DecidableEq

structure PBody where
  mode : Str
  raw : Option Str
  urlencoded : Option (List (Str × Str))
deriving DecidableEq

structure PAuth where
  type : Str
  basic : Option (List (Str × Str))
deriving DecidableEq

structure PRequest where
  method : Option Str
  url : Option PUrl
  header : Option (List (Str × Str))
  body : Option PBody
  auth : Option PAuth
deriving DecidableEq

/-- A collection tree node: `item` is the nested child list (a folder
when present — even empty, since a JS array is truthy), `request` the
leaf payload. -/
inductive PItem where
  | mk (name : Str) (request : Option PRequest) (children : Option (List PItem))

def PItem.name : PItem → Str
  | PItem.mk n _ _ => n

def PItem.request : PItem → Option PRequest
  | PItem.mk _ r _ => r

def PItem.children : PItem → Option (List PItem)
  | PItem.mk _ _ c => c

mutual

/-- `flattenItems`: depth-first pre-order collection of leaf nodes, one
node at a time in list order. -/
def flattenItems : List PItem → List PItem
  | [] => []
  | it :: rest => flattenOne it ++ flattenItems rest

/-- One node of the traversal: a node with a (truthy) nested `item`
list is descended into and its own `request` ignored; otherwise a node
with a truthy `request` is collected as a leaf. -/
def flattenOne : PItem → List PItem
  | PItem.mk _ _ (some cs) => flattenItems cs
  | PItem.mk n (some r) none => [PItem.mk n (some r) none]
  | PItem.mk _ none none => []

end

/-- URL resolution for one leaf (`req.url` handling). -/
def postmanUrl : Option PUrl → Str
  | none => []
  | some (PUrl.pstr s) => s
  | some (PUrl.pobj raw protocol host path) =>
      let rawVal := (raw.getD [])
      if rawVal ≠ [] then rawVal
      else
        let protoVal := protocol.getD []
        let proto := if protoVal ≠ [] then protoVal else str ("https")
        let hostVal := (host.map (joinSep (str (".")))).getD []
        let hostS := if hostVal ≠ [] then hostVal else str ("localhost")
        let pathS := (path.map (joinSep (str ("/")))).getD []
        proto ++ str ("://") ++ hostS ++ str ("/") ++ pathS

/-- Body resolution for one leaf (`raw` and `urlencoded` modes only). -/
def postmanBody : Option PBody → Option Str
  | none => none
  | some pb =>
      if pb.mode = str ("raw") ∧ (pb.raw.getD []) ≠ [] then pb.raw
      else if pb.mode = str ("urlencoded") ∧ pb.urlencoded.isSome then
        some (joinSep (str ("&"))
          ((pb.urlencoded.getD []).map (fun p => p.1 ++ str ("=") ++ p.2)))
      else none

/-- Auth resolution for one leaf (`basic` type only). -/
def postmanAuth : Option PAuth → Option (Str × Str)
  | none => none
  | some a =>
      if a.type = str ("basic") ∧ a.basic.isSome then
        let entries := a.basic.getD []
        match entries.find? (fun e => e.1 = str ("username")) with
        | some userEntry =>
            some (userEntry.2,
              ((entries.find? (fun e => e.1 = str ("password"))).map (fun e => e.2)).getD [])
        | none => none
      else none

/-- The record built for one collected leaf (the `items.map` body). -/
def itemRecord (it : PItem) : ParsedRequest :=
  match it.request with
  | some req =>
      { method := (if (req.method.getD []) ≠ [] then req.method.getD [] else str ("GET")),
        url := postmanUrl req.url,
        headers := (req.header.getD []).foldl (fun h kv => jsInsert kv.1 kv.2 h) [],
        body := postmanBody req.body,
        contentType := none,
        auth := postmanAuth req.auth,
        followRedirects := true,
        insecure := false }
  | none => blankReq

/-- `parsePostmanCollection` after the initial `JSON.parse`: flatten the
tree and convert every collected leaf.  (`flattenItems` only collects
nodes with a truthy `request`, so the `none` fallback of `itemRecord`
is never reached.) -/
def parsePostmanItems (items : List PItem) : List ParsedRequest :=
  (flattenItems items).map itemRecord

/-! ## Helper lemmas -/

/-- A method string is acceptable when non-empty with no ASCII
lowercase letter (the spec's "non-empty and uppercase"). -/
def upperOkB (m : Str) : Bool := (!m.isEmpty) && m.all (fun c => !(isLowerA c))

theorem charOfNat_toNat {n : Nat} (h : n < 256) : (Char.ofNat n).toNat = n := by
  unfold Char.ofNat
  have hv : n.isValidChar := by
    left
    omega
  rw [dif_pos hv]
  unfold Char.ofNatAux Char.toNat
  simp [UInt32.toNat, BitVec.toNat_ofNatLt]

theorem chUp_not_lower (c : Char) : isLowerA (chUp c) = false := by
  unfold chUp
  by_cases h : isLowerA c = true
  · rw [if_pos h]
    unfold isLowerA at h ⊢
    simp only [Bool.and_eq_true, decide_eq_true_eq] at h
    have hlt : c.toNat - 32 < 256 := by omega
    simp only [charOfNat_toNat hlt, Bool.and_eq_false_iff, decide_eq_false_iff_not]
    omega
  · rw [if_neg h]
    exact Bool.not_eq_true _ ▸ (by simpa using h)

theorem upperOkB_jsUp {m : Str} (h : m ≠ []) : upperOkB (jsUp m) = true := by
  unfold upperOkB jsUp
  simp only [Bool.and_eq_true, Bool.not_eq_true', List.isEmpty_eq_false, List.all_eq_true,
    List.mem_map, ne_eq, List.map_eq_nil_iff]
  constructor
  · simpa using h
  · rintro c ⟨d, _, rfl⟩
    simp [chUp_not_lower]

/-- Projection of the parser loop onto the method field: walks the
token list with the same flag-recognition and argument-consumption
structure as `pcLoop`, tracking only the explicit-method flag and the
current method.  A method flag recognized with a (truthy) argument sets
the method and makes it explicit; a recognized data flag (any of the
four data spellings or the url-encode spelling) sets `POST` unless the
method is already explicit; every other token leaves the method alone. -/
def methodSpec : List Str → Bool → Str → Str
  | [], _, cur => cur
  | t :: rest, expl, cur =>
      if t = str ("-X") ∨ t = str ("--request") then
        match rest with
        | n :: rest2 =>
            if n ≠ [] then methodSpec rest2 true (jsUp n)
            else methodSpec rest2 expl cur
        | [] => cur
      else if t = str ("-H") ∨ t = str ("--header") then
        match rest with
        | n :: rest2 =>
            if n ≠ [] then methodSpec rest2 expl cur else methodSpec rest2 expl cur
        | [] => cur
      else if t = str ("-d") ∨ t = str ("--data") ∨ t = str ("--data-raw")
          ∨ t = str ("--data-binary") then
        match rest with
        | n :: rest2 =>
            if n ≠ [] then methodSpec rest2 expl (if expl then cur else str ("POST"))
            else methodSpec rest2 expl cur
        | [] => cur
      else if t = str ("--data-urlencode") then
        match rest with
        | n :: rest2 =>
            if n ≠ [] then methodSpec rest2 expl (if expl then cur else str ("POST"))
            else methodSpec rest2 expl cur
        | [] => cur
      else if t = str ("-u") ∨ t = str ("--user") then
        match rest with
        | n :: rest2 =>
            if n ≠ [] then methodSpec rest2 expl cur else methodSpec rest2 expl cur
        | [] => cur
      else if t = str ("-L") ∨ t = str ("--location") then
        methodSpec rest expl cur
      else if t = str ("-k") ∨ t = str ("--insecure") then
        methodSpec rest expl cur
      else if t = str ("-A") ∨ t = str ("--user-agent") then
        match rest with
        | n :: rest2 =>
            if n ≠ [] then methodSpec rest2 expl cur else methodSpec rest2 expl cur
        | [] => cur
      else if t = str ("-b") ∨ t = str ("--cookie") then
        match rest with
        | n :: rest2 =>
            if n ≠ [] then methodSpec rest2 expl cur else methodSpec rest2 expl cur
        | [] => cur
      else if t = str ("-e") ∨ t = str ("--referer") then
        match rest with
        | n :: rest2 =>
            if n ≠ [] then methodSpec rest2 expl cur else methodSpec rest2 expl cur
        | [] => cur
      else if t = str ("--compressed") then
        methodSpec rest expl cur
      else
        methodSpec rest expl cur

theorem pcLoop_method_spec : ∀ (N : Nat) (toks : List Str) (st : PState), toks.length ≤ N →
    (pcLoop toks st).req.method = methodSpec toks st.explicitMethod st.req.method := by
  intro N
  induction N with
  | zero =>
      intro toks st hlen
      cases toks with
      | nil => rw [pcLoop.eq_def, methodSpec.eq_def]
      | cons a b => simp at hlen
  | succ N ih =>
      intro toks st hlen
      cases toks with
      | nil => rw [pcLoop.eq_def, methodSpec.eq_def]
      | cons t rest =>
          rw [pcLoop.eq_def, methodSpec.eq_def]
          by_cases h1 : t = str ("-X") ∨ t = str ("--request")
          · simp only [if_pos h1]
            cases rest with
            | nil => rfl
            | cons n rest2 =>
                by_cases hn : n ≠ []
                · simp only [if_pos hn]
                  exact ih rest2 _ (by simp only [List.length_cons] at hlen; omega)
                · simp only [if_neg hn]
                  exact ih rest2 st (by simp only [List.length_cons] at hlen; omega)
          · simp only [if_neg h1]
            by_cases h2 : t = str ("-H") ∨ t = str ("--header")
            · simp only [if_pos h2]
              cases rest with
              | nil => rfl
              | cons n rest2 =>
                  by_cases hn : n ≠ []
                  · simp only [if_pos hn]
                    split
                    · exact ih rest2 _ (by simp only [List.length_cons] at hlen; omega)
                    · exact ih rest2 st (by simp only [List.length_cons] at hlen; omega)
                  · simp only [if_neg hn]
                    exact ih rest2 st (by simp only [List.length_cons] at hlen; omega)
            · simp only [if_neg h2]
              by_cases h3 : t = str ("-d") ∨ t = str ("--data") ∨ t = str ("--data-raw")
                  ∨ t = str ("--data-binary")
              · simp only [if_pos h3]
                cases rest with
                | nil => rfl
                | cons n rest2 =>
                    by_cases hn : n ≠ []
                    · simp only [if_pos hn]
                      exact ih rest2 _ (by simp only [List.length_cons] at hlen; omega)
                    · simp only [if_neg hn]
                      exact ih rest2 st (by simp only [List.length_cons] at hlen; omega)
              · simp only [if_neg h3]
                by_cases h4 : t = str ("--data-urlencode")
                · simp only [if_pos h4]
                  cases rest with
                  | nil => rfl
                  | cons n rest2 =>
                      by_cases hn : n ≠ []
                      · simp only [if_pos hn]
                        split
                        · exact ih rest2 _ (by simp only [List.length_cons] at hlen; omega)
                        · exact ih rest2 _ (by simp only [List.length_cons] at hlen; omega)
                      · simp only [if_neg hn]
                        exact ih rest2 st (by simp only [List.length_cons] at hlen; omega)
                · simp only [if_neg h4]
                  by_cases h5 : t = str ("-u") ∨ t = str ("--user")
                  · simp only [if_pos h5]
                    cases rest with
                    | nil => rfl
                    | cons n rest2 =>
                        by_cases hn : n ≠ []
                        · simp only [if_pos hn]
                          exact ih rest2 _ (by simp only [List.length_cons] at hlen; omega)
                        · simp only [if_neg hn]
                          exact ih rest2 st (by simp only [List.length_cons] at hlen; omega)
                  · simp only [if_neg h5]
                    by_cases h6 : t = str ("-L") ∨ t = str ("--location")
                    · simp only [if_pos h6]
                      exact ih rest _ (by simp only [List.length_cons] at hlen; omega)
                    · simp only [if_neg h6]
                      by_cases h7 : t = str ("-k") ∨ t = str ("--insecure")
                      · simp only [if_pos h7]
                        exact ih rest _ (by simp only [List.length_cons] at hlen; omega)
                      · simp only [if_neg h7]
                        by_cases h8 : t = str ("-A") ∨ t = str ("--user-agent")
                        · simp only [if_pos h8]
                          cases rest with
                          | nil => rfl
                          | cons n rest2 =>
                              by_cases hn : n ≠ []
                              · simp only [if_pos hn]
                                exact ih rest2 _ (by simp only [List.length_cons] at hlen; omega)
                              · simp only [if_neg hn]
                                exact ih rest2 st (by simp only [List.length_cons] at hlen; omega)
                        · simp only [if_neg h8]
                          by_cases h9 : t = str ("-b") ∨ t = str ("--cookie")
                          · simp only [if_pos h9]
                            cases rest with
                            | nil => rfl
                            | cons n rest2 =>
                                by_cases hn : n ≠ []
                                · simp only [if_pos hn]
                                  exact ih rest2 _ (by simp only [List.length_cons] at hlen; omega)
                                · simp only [if_neg hn]
                                  exact ih rest2 st (by simp only [List.length_cons] at hlen; omega)
                          · simp only [if_neg h9]
                            by_cases h10 : t = str ("-e") ∨ t = str ("--referer")
                            · simp only [if_pos h10]
                              cases rest with
                              | nil => rfl
                              | cons n rest2 =>
                                  by_cases hn : n ≠ []
                                  · simp only [if_pos hn]
                                    exact ih rest2 _ (by simp only [List.length_cons] at hlen; omega)
                                  · simp only [if_neg hn]
                                    exact ih rest2 st (by simp only [List.length_cons] at hlen; omega)
                            · simp only [if_neg h10]
                              by_cases h11 : t = str ("--compressed")
                              · simp only [if_pos h11]
                                split
                                · exact ih rest _ (by simp only [List.length_cons] at hlen; omega)
                                · exact ih rest st (by simp only [List.length_cons] at hlen; omega)
                              · simp only [if_neg h11]
                                by_cases h12 : ¬ leadsWith (str ("-")) t
                                    ∧ (leadsWith (str ("http")) t ∨ leadsWith (str ("/")) t)
                                · simp only [if_pos h12]
                                  exact ih rest _ (by simp only [List.length_cons] at hlen; omega)
                                · simp only [if_neg h12]
                                  exact ih rest st (by simp only [List.length_cons] at hlen; omega)


theorem methodSpec_ok : ∀ (N : Nat) (toks : List Str) (expl : Bool) (cur : Str),
    toks.length ≤ N → upperOkB cur = true → upperOkB (methodSpec toks expl cur) = true := by
  intro N
  induction N with
  | zero =>
      intro toks expl cur hlen h
      cases toks with
      | nil => simpa [methodSpec] using h
      | cons a b => simp at hlen
  | succ N ih =>
      intro toks expl cur hlen h
      cases toks with
      | nil => simpa [methodSpec] using h
      | cons t rest =>
          rw [methodSpec.eq_def]
          by_cases h1 : t = str ("-X") ∨ t = str ("--request")
          · simp only [if_pos h1]
            cases rest with
            | nil => exact h
            | cons n rest2 =>
                by_cases hn : n ≠ []
                · simp only [if_pos hn]
                  exact ih rest2 _ _ (by simp only [List.length_cons] at hlen; omega) (upperOkB_jsUp hn)
                · simp only [if_neg hn]
                  exact ih rest2 _ _ (by simp only [List.length_cons] at hlen; omega) h
          · simp only [if_neg h1]
            by_cases h2 : t = str ("-H") ∨ t = str ("--header")
            · simp only [if_pos h2]
              cases rest with
              | nil => exact h
              | cons n rest2 =>
                  by_cases hn : n ≠ []
                  · simp only [if_pos hn]
                    exact ih rest2 _ _ (by simp only [List.length_cons] at hlen; omega) h
                  · simp only [if_neg hn]
                    exact ih rest2 _ _ (by simp only [List.length_cons] at hlen; omega) h
            · simp only [if_neg h2]
              by_cases h3 : t = str ("-d") ∨ t = str ("--data") ∨ t = str ("--data-raw")
                  ∨ t = str ("--data-binary")
              · simp only [if_pos h3]
                cases rest with
                | nil => exact h
                | cons n rest2 =>
                    by_cases hn : n ≠ []
                    · simp only [if_pos hn]
                      refine ih rest2 _ _ (by simp only [List.length_cons] at hlen; omega) ?_
                      by_cases he : expl = true
                      · simpa [he] using h
                      · simp only [Bool.not_eq_true] at he
                        simp [he]
                        decide
                    · simp only [if_neg hn]
                      exact ih rest2 _ _ (by simp only [List.length_cons] at hlen; omega) h
              · simp only [if_neg h3]
                by_cases h4 : t = str ("--data-urlencode")
                · simp only [if_pos h4]
                  cases rest with
                  | nil => exact h
                  | cons n rest2 =>
                      by_cases hn : n ≠ []
                      · simp only [if_pos hn]
                        refine ih rest2 _ _ (by simp only [List.length_cons] at hlen; omega) ?_
                        by_cases he : expl = true
                        · simpa [he] using h
                        · simp only [Bool.not_eq_true] at he
                          simp [he]
                          decide
                      · simp only [if_neg hn]
                        exact ih rest2 _ _ (by simp only [List.length_cons] at hlen; omega) h
                · simp only [if_neg h4]
                  by_cases h5 : t = str ("-u") ∨ t = str ("--user")
                  · simp only [if_pos h5]
                    cases rest with
                    | nil => exact h
                    | cons n rest2 =>
                        by_cases hn : n ≠ []
                        · simp only [if_pos hn]
                          exact ih rest2 _ _ (by simp only [List.length_cons] at hlen; omega) h
                        · simp only [if_neg hn]
                          exact ih rest2 _ _ (by simp only [List.length_cons] at hlen; omega) h
                  · simp only [if_neg h5]
                    by_cases h6 : t = str ("-L") ∨ t = str ("--location")
                    · simp only [if_pos h6]
                      exact ih rest _ _ (by simp only [List.length_cons] at hlen; omega) h
                    · simp only [if_neg h6]
                      by_cases h7 : t = str ("-k") ∨ t = str ("--insecure")
                      · simp only [if_pos h7]
                        exact ih rest _ _ (by simp only [List.length_cons] at hlen; omega) h
                      · simp only [if_neg h7]
                        by_cases h8 : t = str ("-A") ∨ t = str ("--user-agent")
                        · simp only [if_pos h8]
                          cases rest with
                          | nil => exact h
                          | cons n rest2 =>
                              by_cases hn : n ≠ []
                              · simp only [if_pos hn]
                                exact ih rest2 _ _ (by simp only [List.length_cons] at hlen; omega) h
                              · simp only [if_neg hn]
                                exact ih rest2 _ _ (by simp only [List.length_cons] at hlen; omega) h
                        · simp only [if_neg h8]
                          by_cases h9 : t = str ("-b") ∨ t = str ("--cookie")
                          · simp only [if_pos h9]
                            cases rest with
                            | nil => exact h
                            | cons n rest2 =>
                                by_cases hn : n ≠ []
                                · simp only [if_pos hn]
                                  exact ih rest2 _ _ (by simp only [List.length_cons] at hlen; omega) h
                                · simp only [if_neg hn]
                                  exact ih rest2 _ _ (by simp only [List.length_cons] at hlen; omega) h
                          · simp only [if_neg h9]
                            by_cases h10 : t = str ("-e") ∨ t = str ("--referer")
                            · simp only [if_pos h10]
                              cases rest with
                              | nil => exact h
                              | cons n rest2 =>
                                  by_cases hn : n ≠ []
                                  · simp only [if_pos hn]
                                    exact ih rest2 _ _ (by simp only [List.length_cons] at hlen; omega) h
                                  · simp only [if_neg hn]
                                    exact ih rest2 _ _ (by simp only [List.length_cons] at hlen; omega) h
                            · simp only [if_neg h10]
                              by_cases h11 : t = str ("--compressed")
                              · simp only [if_pos h11]
                                exact ih rest _ _ (by simp only [List.length_cons] at hlen; omega) h
                              · simp only [if_neg h11]
                                exact ih rest _ _ (by simp only [List.length_cons] at hlen; omega) h

theorem takeWordQ_ne_nil : ∀ (s : Str) (m : Str), takeWordQ s = some m → m ≠ [] := by
  intro s m h
  intro hm
  subst hm
  cases s with
  | nil => simp [takeWordQ] at h
  | cons c rest =>
      cases rest with
      | nil =>
          simp only [takeWordQ] at h
          by_cases hq : isQuoteCh c <;> simp [hq] at h
      | cons d rest2 =>
          simp only [takeWordQ] at h
          by_cases hq : isQuoteCh c
          · by_cases hw : isWordCh d
            · cases hdw : rest2.dropWhile isWordCh with
              | nil => rw [hdw] at h; simp [hq, hw] at h
              | cons e es =>
                  rw [hdw] at h
                  by_cases he : isQuoteCh e <;> simp [hq, hw, he] at h
            · simp [hq, hw] at h
          · simp [hq] at h

theorem findFirst_ex {α : Type} (p : Str → Option α) :
    ∀ (s : Str) (r : α), findFirst p s = some r → ∃ s2, p s2 = some r := by
  intro s
  induction s with
  | nil =>
      intro r h
      exact ⟨[], by simpa [findFirst] using h⟩
  | cons c rest ih =>
      intro r h
      unfold findFirst at h
      cases hp : p (c :: rest) with
      | some v =>
          rw [hp] at h
          cases h
          exact ⟨c :: rest, hp⟩
      | none =>
          rw [hp] at h
          exact ih r h

theorem methodAt_ne_nil : ∀ (s : Str) (m : Str), methodAt s = some m → m ≠ [] := by
  intro s m h
  unfold methodAt at h
  split at h
  · cases h
  · split at h
    · exact takeWordQ_ne_nil _ _ h
    · cases h

theorem methodM_ne_nil (code m : Str) (h : findFirst methodAt code = some m) : m ≠ [] := by
  obtain ⟨s2, hs2⟩ := findFirst_ex methodAt code m h
  exact methodAt_ne_nil s2 m hs2

theorem parseFetchCode_method_ok (code : Str) : upperOkB (parseFetchCode code).method = true := by
  unfold parseFetchCode
  cases hm : findFirst methodAt code with
  | some m =>
      have hne := methodM_ne_nil code m hm
      repeat' split
      all_goals simp [blankReq, upperOkB_jsUp hne]
  | none =>
      repeat' split
      all_goals simp [blankReq]
      all_goals decide

theorem parseAxiosCode_method_ok (code : Str) : upperOkB (parseAxiosCode code).method = true := by
  unfold parseAxiosCode
  cases hm : findFirst methodAt code with
  | some m =>
      have hne := methodM_ne_nil code m hm
      repeat' split
      all_goals simp [blankReq, upperOkB_jsUp hne]
      all_goals decide
  | none =>
      repeat' split
      all_goals simp [blankReq]
      all_goals decide

theorem itemRecord_method_ne (it : PItem) : (itemRecord it).method ≠ [] := by
  unfold itemRecord
  split
  · rename_i req heq
    show (if (req.method.getD []) ≠ [] then req.method.getD [] else str ("GET")) ≠ []
    split
    · assumption
    · decide
  · show blankReq.method ≠ []
    decide

/-! ## Claim C1 -/

/-- Claim C1, amended: the command parser and the two code-snippet
extractors always produce a non-empty method with no lowercase letter
(default `GET`, flag arguments uppercased); the collection importer
produces a non-empty method (defaulting to `GET` when the collection's
method is absent or empty) but copies the collection's method string
verbatim, so it need not be uppercase. -/
theorem claim1_amended :
    (∀ input : Str, upperOkB (parseCurl input).method = true)
    ∧ (∀ code : Str, upperOkB (parseFetchCode code).method = true)
    ∧ (∀ code : Str, upperOkB (parseAxiosCode code).method = true)
    ∧ (∀ (items : List PItem) (r : ParsedRequest),
        r ∈ parsePostmanItems items → r.method ≠ []) := by
  refine ⟨?_, parseFetchCode_method_ok, parseAxiosCode_method_ok, ?_⟩
  · intro input
    unfold parseCurl
    rw [pcLoop_method_spec (tokenize (stripCurl (jsTrim (normBackslash input)))).length _ _
      (le_refl _)]
    exact methodSpec_ok _ _ _ _ (le_refl _) (by decide)
  · intro items r hr
    unfold parsePostmanItems at hr
    obtain ⟨it, _, rfl⟩ := List.mem_map.mp hr
    exact itemRecord_method_ne it

/-- Claim C1, counterexample: a collection whose leaf request carries
the lowercase method `get` yields a record whose method is `get`, which
is not uppercase — the importer does not normalise case. -/
theorem claim1_counterexample :
    parsePostmanItems
        [PItem.mk (str ("r1"))
          (some { method := some (str ("get")), url := none, header := none,
                  body := none, auth := none }) none]
      = [{ method := str ("get"), url := [], headers := [], body := none,
           contentType := none, auth := none, followRedirects := true, insecure := false }]
    ∧ upperOkB (str ("get")) = false := by decide

/-- Claim C1, witness: the importer part of the amended claim applied to
a concrete one-leaf collection. -/
theorem claim1_witness :
    ({ method := str ("get"), url := [], headers := [], body := none, contentType := none,
       auth := none, followRedirects := true, insecure := false } : ParsedRequest).method ≠ [] :=
  claim1_amended.2.2.2
    [PItem.mk (str ("r1"))
      (some { method := some (str ("get")), url := none, header := none,
              body := none, auth := none }) none]
    _ (by decide)

/-- The predicate "is not a colon", as used to phrase the first-colon
split. -/
def notColon (c : Char) : Bool := c ≠ ':'

theorem splitColon_head : ∀ s : Str, ∃ ps, splitColon s = s.takeWhile notColon :: ps := by
  intro s
  induction s with
  | nil => exact ⟨[], rfl⟩
  | cons c rest ih =>
      by_cases hc : c = ':'
      · subst hc
        refine ⟨splitColon rest, ?_⟩
        simp [splitColon, List.takeWhile_cons, notColon]
      · obtain ⟨ps, hps⟩ := ih
        refine ⟨ps, ?_⟩
        simp only [splitColon, hc, if_false, hps, List.takeWhile_cons]
        simp [notColon, hc]

theorem splitColon_no_colon : ∀ s : Str, (∀ c ∈ s, c ≠ ':') → splitColon s = [s] := by
  intro s
  induction s with
  | nil => intro _; rfl
  | cons c rest ih =>
      intro h
      have hc : c ≠ ':' := h c (by simp)
      have hrest := ih (fun d hd => h d (by simp [hd]))
      simp only [splitColon, hc, if_false, hrest]

theorem splitColon_append : ∀ (pre suf : Str), (∀ c ∈ pre, c ≠ ':') →
    splitColon (pre ++ ':' :: suf) = pre :: splitColon suf := by
  intro pre
  induction pre with
  | nil =>
      intro suf _
      simp [splitColon]
  | cons c rest ih =>
      intro suf h
      have hc : c ≠ ':' := h c (by simp)
      have hrest := ih suf (fun d hd => h d (by simp [hd]))
      simp only [List.cons_append, splitColon, hc, if_false, List.append_eq, hrest]

theorem dropWhile_nil_all (p : Char → Bool) :
    ∀ l : List Char, l.dropWhile p = [] → ∀ c ∈ l, p c = true := by
  intro l
  induction l with
  | nil => intro _ c hc; cases hc
  | cons a rest ih =>
      intro h c hc
      by_cases hp : p a
      · rw [List.dropWhile_cons, if_pos hp] at h
        rcases List.mem_cons.mp hc with hc | hc
        · rw [hc]
          exact hp
        · exact ih h c hc
      · rw [List.dropWhile_cons, if_neg hp] at h
        cases h

theorem takeWhile_all_self (p : Char → Bool) :
    ∀ l : List Char, (∀ c ∈ l, p c = true) → l.takeWhile p = l := by
  intro l
  induction l with
  | nil => intro _; rfl
  | cons a rest ih =>
      intro h
      rw [List.takeWhile_cons, if_pos (h a (by simp))]
      rw [ih (fun d hd => h d (by simp [hd]))]

theorem mem_takeWhile_pred (p : Char → Bool) :
    ∀ (l : List Char) (c : Char), c ∈ l.takeWhile p → p c = true := by
  intro l
  induction l with
  | nil => intro c hc; cases hc
  | cons a rest ih =>
      intro c hc
      by_cases hp : p a
      · rw [List.takeWhile_cons, if_pos hp] at hc
        rcases List.mem_cons.mp hc with hc | hc
        · rw [hc]
          exact hp
        · exact ih c hc
      · rw [List.takeWhile_cons, if_neg hp] at hc
        cases hc

theorem dropWhile_head_not (p : Char → Bool) :
    ∀ (l : List Char) (d : Char) (suf : Str), l.dropWhile p = d :: suf → p d = false := by
  intro l
  induction l with
  | nil => intro d suf h; cases h
  | cons a rest ih =>
      intro d suf h
      by_cases hp : p a
      · rw [List.dropWhile_cons, if_pos hp] at h
        exact ih d suf h
      · rw [List.dropWhile_cons, if_neg hp] at h
        cases h
        simpa using hp

/-! ## Claim C2 -/

/-- Claim C2, amended: the basic-auth argument is split at every colon
(`split(':')`); `user` is the segment before the first colon, and
`pass` is the segment between the first and the second colon (the whole
remainder only when there is no second colon), empty when there is no
colon at all.  The two examples of the claim hold as stated. -/
theorem claim2_amended (arg : Str) (h : arg ≠ []) :
    (pcLoop [str ("-u"), arg] { req := blankReq, explicitMethod := false }).req.auth
      = some (arg.takeWhile notColon,
          if arg.dropWhile notColon = [] then []
          else ((arg.dropWhile notColon).tail).takeWhile notColon)
    ∧ (parseCurl (str ("curl -u alice:secret https://x"))).auth
        = some (str ("alice"), str ("secret"))
    ∧ (parseCurl (str ("curl -u alice https://x"))).auth = some (str ("alice"), []) := by
  refine ⟨?_, by decide, by decide⟩
  have hstep : (pcLoop [str ("-u"), arg] { req := blankReq, explicitMethod := false }).req.auth
      = some ((match splitColon arg with | u :: _ => u | [] => []),
              (match splitColon arg with | _ :: p :: _ => p | _ => [])) := by
    rw [pcLoop.eq_def]
    simp +decide [h, pcLoop]
  rw [hstep]
  by_cases hcolon : arg.dropWhile notColon = []
  · have hall : ∀ c ∈ arg, ¬ c = ':' := by
      intro c hc
      have := dropWhile_nil_all _ arg hcolon c hc
      simpa [notColon] using this
    rw [splitColon_no_colon arg hall]
    have htw : arg.takeWhile notColon = arg :=
      takeWhile_all_self _ arg (by intro c hc; simpa [notColon] using hall c hc)
    rw [if_pos hcolon, htw]
  · obtain ⟨d, suf, hds⟩ : ∃ d suf, arg.dropWhile notColon = d :: suf := by
      cases hdw : arg.dropWhile notColon with
      | nil => exact absurd hdw hcolon
      | cons d suf => exact ⟨d, suf, rfl⟩
    have hd : d = ':' := by
      have := dropWhile_head_not _ arg d suf hds
      simpa [notColon] using this
    subst hd
    have harg : arg = arg.takeWhile notColon ++ ':' :: suf := by
      have h0 := List.takeWhile_append_dropWhile notColon arg
      rw [hds] at h0
      exact h0.symm
    have hsplit : splitColon arg = arg.takeWhile notColon :: splitColon suf := by
      conv_lhs => rw [harg]
      rw [splitColon_append]
      intro c hc
      have := mem_takeWhile_pred _ arg c hc
      simpa [notColon] using this
    obtain ⟨ps, hps⟩ := splitColon_head suf
    rw [hsplit, hps, if_neg hcolon, hds]
    rfl

/-- Claim C2, counterexample: with two colons in the argument, pass is
only the segment between the two colons, not the entire remainder after
the first colon: `-u a:b:c` yields pass `b`, the claim demands `b:c`. -/
theorem claim2_counterexample :
    (parseCurl (str ("curl -u a:b:c https://x"))).auth = some (str ("a"), str ("b"))
    ∧ (some (str ("a"), str ("b")) : Option (Str × Str)) ≠ some (str ("a"), str ("b:c")) := by
  decide

/-- Claim C2, witness: the amended claim applied to a concrete
argument with one colon. -/
theorem claim2_witness :
    (pcLoop [str ("-u"), str ("x:yz")] { req := blankReq, explicitMethod := false }).req.auth
      = some ((str ("x:yz")).takeWhile notColon,
          if (str ("x:yz")).dropWhile notColon = [] then []
          else (((str ("x:yz")).dropWhile notColon).tail).takeWhile notColon) :=
  (claim2_amended (str ("x:yz")) (by decide)).1

theorem tokAux_unterminated : ∀ (u acc : Str), squote ∉ u →
    tokAux u acc true false false = if acc ++ u = [] then [] else [acc ++ u] := by
  intro u
  induction u with
  | nil =>
      intro acc _
      simp [tokAux]
  | cons c u2 ih =>
      intro acc hq
      have hc : c ≠ squote := by
        intro hcc
        exact hq (by simp [hcc])
      have hstep : tokAux (c :: u2) acc true false false
          = tokAux u2 (acc ++ [c]) true false false := by
        simp +decide [tokAux, hc]
      rw [hstep, ih (acc ++ [c]) (fun hm => hq (by simp [hm]))]
      simp

/-! ## Claim C4 -/

/-- Claim C4: the quoting example tokenizes as stated; an unterminated
single quote consumes everything to end of input as one final token
(conjunct two, for any quote-free tail `t`); and a backslash-escaped
quote inside an unquoted token is appended literally without toggling
quoting. -/
theorem claim4 (t : Str) (hq : squote ∉ t) :
    tokenize (str ("a \x27b c\x27 d")) = [str ("a"), str ("b c"), str ("d")]
    ∧ tokenize (str ("a ") ++ squote :: t) = str ("a") :: (if t = [] then [] else [t])
    ∧ tokenize (str ("ab\\\x27cd ef")) = [str ("ab\x27cd"), str ("ef")] := by
  refine ⟨by decide, ?_, by decide⟩
  have h0 : str ("a ") ++ squote :: t = 'a' :: ' ' :: squote :: t := rfl
  rw [tokenize, h0]
  have h1 : tokAux ('a' :: ' ' :: squote :: t) [] false false false
      = str ("a") :: tokAux t [] true false false := by
    simp +decide [tokAux]
  rw [h1, tokAux_unterminated t [] hq]
  simp

/-- Claim C4, witness: the unterminated-quote conjunct at the concrete
tail `b c`. -/
theorem claim4_witness :
    tokenize (str ("a ") ++ squote :: str ("b c"))
      = str ("a") :: (if str ("b c") = ([] : Str) then [] else [str ("b c")]) :=
  (claim4 (str ("b c")) (by decide)).2.1

/-! ## Claim C5 -/

/-- Projection of the parser loop onto the body field: walks the token
list with the same flag-recognition and argument-consumption structure
as `pcLoop`, tracking only the current optional body.  A recognised
data flag (any of the four data spellings) with a (truthy) argument
sets the body to that argument verbatim; the url-encode spelling
appends to a truthy existing body with `&`, otherwise sets it; every
other token leaves the body alone. -/
def bodySpec : List Str → Option Str → Option Str
  | [], cur => cur
  | t :: rest, cur =>
      if t = str ("-X") ∨ t = str ("--request") then
        match rest with
        | n :: rest2 =>
            if n ≠ [] then bodySpec rest2 cur else bodySpec rest2 cur
        | [] => cur
      else if t = str ("-H") ∨ t = str ("--header") then
        match rest with
        | n :: rest2 =>
            if n ≠ [] then bodySpec rest2 cur else bodySpec rest2 cur
        | [] => cur
      else if t = str ("-d") ∨ t = str ("--data") ∨ t = str ("--data-raw")
          ∨ t = str ("--data-binary") then
        match rest with
        | n :: rest2 =>
            if n ≠ [] then bodySpec rest2 (some n)
            else bodySpec rest2 cur
        | [] => cur
      else if t = str ("--data-urlencode") then
        match rest with
        | n :: rest2 =>
            if n ≠ [] then
              bodySpec rest2 (some (match cur with
                | some b => if b ≠ [] then b ++ str ("&") ++ n else n
                | none => n))
            else bodySpec rest2 cur
        | [] => cur
      else if t = str ("-u") ∨ t = str ("--user") then
        match rest with
        | n :: rest2 =>
            if n ≠ [] then bodySpec rest2 cur else bodySpec rest2 cur
        | [] => cur
      else if t = str ("-L") ∨ t = str ("--location") then
        bodySpec rest cur
      else if t = str ("-k") ∨ t = str ("--insecure") then
        bodySpec rest cur
      else if t = str ("-A") ∨ t = str ("--user-agent") then
        match rest with
        | n :: rest2 =>
            if n ≠ [] then bodySpec rest2 cur else bodySpec rest2 cur
        | [] => cur
      else if t = str ("-b") ∨ t = str ("--cookie") then
        match rest with
        | n :: rest2 =>
            if n ≠ [] then bodySpec rest2 cur else bodySpec rest2 cur
        | [] => cur
      else if t = str ("-e") ∨ t = str ("--referer") then
        match rest with
        | n :: rest2 =>
            if n ≠ [] then bodySpec rest2 cur else bodySpec rest2 cur
        | [] => cur
      else if t = str ("--compressed") then
        bodySpec rest cur
      else
        bodySpec rest cur

theorem pcLoop_body_spec : ∀ (N : Nat) (toks : List Str) (st : PState), toks.length ≤ N →
    (pcLoop toks st).req.body = bodySpec toks st.req.body := by
  intro N
  induction N with
  | zero =>
      intro toks st hlen
      cases toks with
      | nil => rw [pcLoop.eq_def, bodySpec.eq_def]
      | cons a b => simp at hlen
  | succ N ih =>
      intro toks st hlen
      cases toks with
      | nil => rw [pcLoop.eq_def, bodySpec.eq_def]
      | cons t rest =>
          rw [pcLoop.eq_def, bodySpec.eq_def]
          by_cases h1 : t = str ("-X") ∨ t = str ("--request")
          · simp only [if_pos h1]
            cases rest with
            | nil => rfl
            | cons n rest2 =>
                by_cases hn : n ≠ []
                · simp only [if_pos hn]
                  exact ih rest2 _ (by simp only [List.length_cons] at hlen; omega)
                · simp only [if_neg hn]
                  exact ih rest2 st (by simp only [List.length_cons] at hlen; omega)
          · simp only [if_neg h1]
            by_cases h2 : t = str ("-H") ∨ t = str ("--header")
            · simp only [if_pos h2]
              cases rest with
              | nil => rfl
              | cons n rest2 =>
                  by_cases hn : n ≠ []
                  · simp only [if_pos hn]
                    split
                    · exact ih rest2 _ (by simp only [List.length_cons] at hlen; omega)
                    · exact ih rest2 st (by simp only [List.length_cons] at hlen; omega)
                  · simp only [if_neg hn]
                    exact ih rest2 st (by simp only [List.length_cons] at hlen; omega)
            · simp only [if_neg h2]
              by_cases h3 : t = str ("-d") ∨ t = str ("--data") ∨ t = str ("--data-raw")
                  ∨ t = str ("--data-binary")
              · simp only [if_pos h3]
                cases rest with
                | nil => rfl
                | cons n rest2 =>
                    by_cases hn : n ≠ []
                    · simp only [if_pos hn]
                      exact ih rest2 _ (by simp only [List.length_cons] at hlen; omega)
                    · simp only [if_neg hn]
                      exact ih rest2 st (by simp only [List.length_cons] at hlen; omega)
              · simp only [if_neg h3]
                by_cases h4 : t = str ("--data-urlencode")
                · simp only [if_pos h4]
                  cases rest with
                  | nil => rfl
                  | cons n rest2 =>
                      by_cases hn : n ≠ []
                      · simp only [if_pos hn]
                        split
                        · exact ih rest2 _ (by simp only [List.length_cons] at hlen; omega)
                        · exact ih rest2 _ (by simp only [List.length_cons] at hlen; omega)
                      · simp only [if_neg hn]
                        exact ih rest2 st (by simp only [List.length_cons] at hlen; omega)
                · simp only [if_neg h4]
                  by_cases h5 : t = str ("-u") ∨ t = str ("--user")
                  · simp only [if_pos h5]
                    cases rest with
                    | nil => rfl
                    | cons n rest2 =>
                        by_cases hn : n ≠ []
                        · simp only [if_pos hn]
                          exact ih rest2 _ (by simp only [List.length_cons] at hlen; omega)
                        · simp only [if_neg hn]
                          exact ih rest2 st (by simp only [List.length_cons] at hlen; omega)
                  · simp only [if_neg h5]
                    by_cases h6 : t = str ("-L") ∨ t = str ("--location")
                    · simp only [if_pos h6]
                      exact ih rest _ (by simp only [List.length_cons] at hlen; omega)
                    · simp only [if_neg h6]
                      by_cases h7 : t = str ("-k") ∨ t = str ("--insecure")
                      · simp only [if_pos h7]
                        exact ih rest _ (by simp only [List.length_cons] at hlen; omega)
                      · simp only [if_neg h7]
                        by_cases h8 : t = str ("-A") ∨ t = str ("--user-agent")
                        · simp only [if_pos h8]
                          cases rest with
                          | nil => rfl
                          | cons n rest2 =>
                              by_cases hn : n ≠ []
                              · simp only [if_pos hn]
                                exact ih rest2 _ (by simp only [List.length_cons] at hlen; omega)
                              · simp only [if_neg hn]
                                exact ih rest2 st (by simp only [List.length_cons] at hlen; omega)
                        · simp only [if_neg h8]
                          by_cases h9 : t = str ("-b") ∨ t = str ("--cookie")
                          · simp only [if_pos h9]
                            cases rest with
                            | nil => rfl
                            | cons n rest2 =>
                                by_cases hn : n ≠ []
                                · simp only [if_pos hn]
                                  exact ih rest2 _ (by simp only [List.length_cons] at hlen; omega)
                                · simp only [if_neg hn]
                                  exact ih rest2 st (by simp only [List.length_cons] at hlen; omega)
                          · simp only [if_neg h9]
                            by_cases h10 : t = str ("-e") ∨ t = str ("--referer")
                            · simp only [if_pos h10]
                              cases rest with
                              | nil => rfl
                              | cons n rest2 =>
                                  by_cases hn : n ≠ []
                                  · simp only [if_pos hn]
                                    exact ih rest2 _ (by simp only [List.length_cons] at hlen; omega)
                                  · simp only [if_neg hn]
                                    exact ih rest2 st (by simp only [List.length_cons] at hlen; omega)
                            · simp only [if_neg h10]
                              by_cases h11 : t = str ("--compressed")
                              · simp only [if_pos h11]
                                split
                                · exact ih rest _ (by simp only [List.length_cons] at hlen; omega)
                                · exact ih rest st (by simp only [List.length_cons] at hlen; omega)
                              · simp only [if_neg h11]
                                by_cases h12 : ¬ leadsWith (str ("-")) t
                                    ∧ (leadsWith (str ("http")) t ∨ leadsWith (str ("/")) t)
                                · simp only [if_pos h12]
                                  exact ih rest _ (by simp only [List.length_cons] at hlen; omega)
                                · simp only [if_neg h12]
                                  exact ih rest st (by simp only [List.length_cons] at hlen; omega)

/-- One step of the parser loop at any recognised data flag (any of the
four spellings) with a truthy argument: the body is set to that
argument verbatim and the method becomes `POST` unless already
explicitly set, whatever the surrounding tokens and prior state. -/
theorem pcLoop_data_step (t n : Str) (rest : List Str) (st : PState)
    (ht : t = str ("-d") ∨ t = str ("--data") ∨ t = str ("--data-raw")
      ∨ t = str ("--data-binary"))
    (hn : n ≠ []) :
    pcLoop (t :: n :: rest) st = pcLoop rest { st with req := { st.req with body := some n, method := if st.explicitMethod then st.req.method else str ("POST") } } := by
  rcases ht with rfl | rfl | rfl | rfl <;> (rw [pcLoop.eq_def]; simp +decide [hn])

/-- Claim C5, amended: every recognised data flag (any of the four
spellings) with a (truthy) argument sets the body to that argument
verbatim at that step — universally over the flag spelling, the
argument, the surrounding tokens and the prior state — and the final
body of every parse is fully characterised by the `bodySpec` walk over
the token list; the final method is fully characterised by the
`methodSpec` walk: a method flag counts only when it is recognised in
flag position with a non-empty argument (its uppercased argument then
wins regardless of order), and otherwise a recognised data flag forces
`POST`. -/
theorem claim5_amended :
    (∀ input : Str, (parseCurl input).method
        = methodSpec (tokenize (stripCurl (jsTrim (normBackslash input)))) false (str ("GET")))
    ∧ (∀ input : Str, (parseCurl input).body
        = bodySpec (tokenize (stripCurl (jsTrim (normBackslash input)))) none)
    ∧ (∀ (t n : Str) (rest : List Str) (st : PState),
        (t = str ("-d") ∨ t = str ("--data") ∨ t = str ("--data-raw")
          ∨ t = str ("--data-binary")) → n ≠ [] →
        pcLoop (t :: n :: rest) st = pcLoop rest { st with req := { st.req with body := some n, method := if st.explicitMethod then st.req.method else str ("POST") } })
    ∧ (parseCurl (str ("curl https://x -d qq"))).method = str ("POST")
    ∧ (parseCurl (str ("curl https://x -d qq"))).body = some (str ("qq"))
    ∧ (parseCurl (str ("curl -X PUT https://x -d qq"))).method = str ("PUT")
    ∧ (parseCurl (str ("curl -X PUT https://x -d qq"))).body = some (str ("qq"))
    ∧ (parseCurl (str ("curl https://x -d qq -X PUT"))).method = str ("PUT") := by
  refine ⟨?_, ?_, ?_, by decide, by decide, by decide, by decide, by decide⟩
  · intro input
    unfold parseCurl
    exact pcLoop_method_spec _ _ _ (le_refl _)
  · intro input
    unfold parseCurl
    exact pcLoop_body_spec _ _ _ (le_refl _)
  · exact pcLoop_data_step

/-- Claim C5, witness: the universal data-step conjunct instantiated at
the `--data-raw` spelling with argument `vv` from the initial state. -/
theorem claim5_witness :
    pcLoop [str ("--data-raw"), str ("vv")] { req := blankReq, explicitMethod := false }
      = pcLoop [] { req := { blankReq with body := some (str ("vv")), method := str ("POST") }, explicitMethod := false } :=
  claim5_amended.2.2.1 (str ("--data-raw")) (str ("vv")) []
    { req := blankReq, explicitMethod := false }
    (Or.inr (Or.inr (Or.inl rfl))) (by decide)

/-- Claim C5, counterexample: in `curl http://x -d y -X` a method flag
token appears in the command, yet the method is `POST` — a trailing
method flag with no argument is not recognised, contradicting the
claim's "if and only if no method flag appears anywhere". -/
theorem claim5_counterexample :
    (parseCurl (str ("curl http://x -d y -X"))).method = str ("POST")
    ∧ str ("-X") ∈ tokenize (stripCurl (jsTrim (normBackslash (str ("curl http://x -d y -X"))))) := by
  decide

/-! ## Claim C8 -/

/-- Claim C8: the importer flattens the item tree in depth-first
pre-order: a two-folder collection with one leaf each yields exactly
the two leaf records in document order whatever the folder names; a
node with a nested item list is descended into with its own request
ignored; a leaf with a request becomes one record; and flattening
distributes over list concatenation (document order). -/
theorem claim8 :
    (∀ (n1 n2 m1 m2 : Str) (r1 r2 : PRequest),
      parsePostmanItems
          [PItem.mk n1 none (some [PItem.mk m1 (some r1) none]),
           PItem.mk n2 none (some [PItem.mk m2 (some r2) none])]
        = [itemRecord (PItem.mk m1 (some r1) none), itemRecord (PItem.mk m2 (some r2) none)])
    ∧ (∀ (n : Str) (req : Option PRequest) (cs : List PItem),
        flattenItems [PItem.mk n req (some cs)] = flattenItems cs)
    ∧ (∀ (n : Str) (r : PRequest),
        flattenItems [PItem.mk n (some r) none] = [PItem.mk n (some r) none])
    ∧ (∀ xs ys : List PItem, flattenItems (xs ++ ys) = flattenItems xs ++ flattenItems ys) := by
  refine ⟨?_, ?_, ?_, ?_⟩
  · intro n1 n2 m1 m2 r1 r2
    rfl
  · intro n req cs
    show flattenOne (PItem.mk n req (some cs)) ++ flattenItems [] = flattenItems cs
    cases req <;> simp [flattenOne, flattenItems]
  · intro n r
    rfl
  · intro xs ys
    induction xs with
    | nil => rfl
    | cons x rest ih =>
        show flattenOne x ++ flattenItems (rest ++ ys)
            = (flattenOne x ++ flattenItems rest) ++ flattenItems ys
        rw [ih, List.append_assoc]

/-! ## Claim C7 -/

/-- Claim C7: any input whose trimmed text starts with `curl ` or
`curl` followed by a newline is classified as the shell command format,
even when the axios module name occurs later; and a JSON parse failure
in the collection check falls through to the later substring checks
(the second concrete input is not valid JSON yet detection still
returns the axios format; the third is a valid collection and is
classified as such). -/
theorem claim7 :
    (∀ s : Str,
      (leadsWith (str ("curl ")) (jsTrim s) = true ∨ leadsWith (str ("curl\n")) (jsTrim s) = true)
      → detectType s = InputType.curl)
    ∧ detectType (str ("curl https://e --data axios")) = InputType.curl
    ∧ detectType (str ("\x7b \x22info\x22: axios \x7d")) = InputType.axios
    ∧ detectType (str ("\x7b\x22info\x22:1,\x22item\x22:[1]\x7d")) = InputType.postman := by
  refine ⟨?_, by decide, by decide, by decide⟩
  intro s h
  unfold detectType
  rcases h with h | h <;> simp [h]

/-- Claim C7, witness: the universal conjunct at a concrete input that
also contains the axios module name. -/
theorem claim7_witness : detectType (str ("curl -X GET http://a axios")) = InputType.curl :=
  claim7.1 _ (Or.inl (by decide))

/-! ## Claim C10 -/

/-- Claim C10: when the axios shorthand-GET pattern matches, the
extractor returns immediately: only the URL is taken, the method is
`GET`, and headers, body and auth are left at their defaults even if
method, header, auth or data patterns occur elsewhere in the snippet —
unlike the shorthand-POST case, which keeps scanning (third conjunct:
the same snippet with `axios.post` picks up method, headers and data). -/
theorem claim10 :
    (∀ (code u : Str), findFirst (callQuotedAt "axios.get") code = some u →
      parseAxiosCode code = { blankReq with url := u })
    ∧ parseAxiosCode
        (str ("axios.get(\x27http://a\x27); method: \x27put\x27, headers: \x7b\x27K\x27: \x27V\x27\x7d, data: \x27zz\x27"))
        = { blankReq with url := str ("http://a") }
    ∧ parseAxiosCode
        (str ("axios.post(\x27http://a\x27); method: \x27put\x27, headers: \x7b\x27K\x27: \x27V\x27\x7d, data: \x27zz\x27"))
        = { blankReq with method := str ("PUT"), url := str ("http://a"), headers := [(str ("K"), str ("V"))], body := some (str ("zz")) } := by
  refine ⟨?_, by decide, by decide⟩
  intro code u h
  unfold parseAxiosCode
  rw [h]

/-- Claim C10, witness: the early-return conjunct at a concrete
snippet. -/
theorem claim10_witness :
    parseAxiosCode (str ("axios.get(\x27u1\x27)")) = { blankReq with url := str ("u1") } :=
  claim10.1 _ _ (by decide)

/-! ## Claim C9 -/

/-- Claim C9: both extractors are total functions that degrade
gracefully: each field whose pattern does not occur is left at its
default (method `GET`, empty url, empty headers, no body, no auth; the
fetch extractor never sets auth or contentType at all), and garbage
input yields exactly the default record. -/
theorem claim9 :
    (∀ code : Str, findFirst (callQuotedAt "fetch") code = none → (parseFetchCode code).url = [])
    ∧ (∀ code : Str, findFirst methodAt code = none → (parseFetchCode code).method = str ("GET"))
    ∧ (∀ code : Str, findFirst (keyBraceAt "headers") code = none → (parseFetchCode code).headers = [])
    ∧ (∀ code : Str, findFirst bodyJsonAt code = none → findFirst (keyQuotedAt "body") code = none → (parseFetchCode code).body = none)
    ∧ (∀ code : Str, (parseFetchCode code).auth = none ∧ (parseFetchCode code).contentType = none)
    ∧ (∀ code : Str, findFirst (callQuotedAt "axios.get") code = none → findFirst (callQuotedAt "axios.post") code = none → findFirst (keyQuotedAt "url") code = none → (parseAxiosCode code).url = [])
    ∧ (∀ code : Str, findFirst (callQuotedAt "axios.get") code = none → findFirst methodAt code = none → findFirst (callQuotedAt "axios.post") code = none → (parseAxiosCode code).method = str ("GET"))
    ∧ (∀ code : Str, findFirst (callQuotedAt "axios.get") code = none → findFirst (keyBraceAt "headers") code = none → (parseAxiosCode code).headers = [])
    ∧ (∀ code : Str, findFirst (callQuotedAt "axios.get") code = none → findFirst (keyBraceAt "auth") code = none → (parseAxiosCode code).auth = none)
    ∧ (∀ code : Str, findFirst (callQuotedAt "axios.get") code = none → findFirst axDataAt code = none → (parseAxiosCode code).body = none)
    ∧ parseFetchCode (str ("totally unrelated text 123")) = blankReq
    ∧ parseAxiosCode (str ("totally unrelated text 123")) = blankReq := by
  refine ⟨?_, ?_, ?_, ?_, ?_, ?_, ?_, ?_, ?_, ?_, by decide, by decide⟩
  · intro code h
    unfold parseFetchCode
    rw [h]
    repeat' split
    all_goals simp_all [blankReq]
  · intro code h
    unfold parseFetchCode
    rw [h]
    repeat' split
    all_goals simp_all [blankReq]
  · intro code h
    unfold parseFetchCode
    rw [h]
    repeat' split
    all_goals simp_all [blankReq]
  · intro code h1 h2
    unfold parseFetchCode
    rw [h1, h2]
    repeat' split
    all_goals simp_all [blankReq]
  · intro code
    unfold parseFetchCode
    repeat' split
    all_goals simp_all [blankReq]
  · intro code h1 h2 h3
    unfold parseAxiosCode
    rw [h1, h2, h3]
    repeat' split
    all_goals simp_all [blankReq]
  · intro code h1 h2 h3
    unfold parseAxiosCode
    rw [h1, h2, h3]
    repeat' split
    all_goals simp_all [blankReq]
  · intro code h1 h2
    unfold parseAxiosCode
    rw [h1, h2]
    repeat' split
    all_goals simp_all [blankReq]
  · intro code h1 h2
    unfold parseAxiosCode
    rw [h1, h2]
    repeat' split
    all_goals simp_all [blankReq]
  · intro code h1 h2
    unfold parseAxiosCode
    rw [h1, h2]
    repeat' split
    all_goals simp_all [blankReq]

/-- Claim C9, witness: the pattern-absent conjuncts discharged at a
concrete garbage input. -/
theorem claim9_witness :
    (parseFetchCode (str ("zz"))).url = []
    ∧ (parseFetchCode (str ("zz"))).method = str ("GET")
    ∧ (parseAxiosCode (str ("zz"))).body = none :=
  ⟨claim9.1 _ (by decide), claim9.2.1 _ (by decide),
    claim9.2.2.2.2.2.2.2.2.2.1 _ (by decide) (by decide)⟩

theorem leadsWith_append_self : ∀ (p r : Str), leadsWith p (p ++ r) = true := by
  intro p
  induction p with
  | nil => intro r; rfl
  | cons c ps ih =>
      intro r
      simp [leadsWith, ih]

theorem leadsWith_extend : ∀ (p s t : Str), leadsWith p s = true → leadsWith p (s ++ t) = true := by
  intro p
  induction p with
  | nil => intro s t _; rfl
  | cons c ps ih =>
      intro s t h
      cases s with
      | nil => cases h
      | cons d ss =>
          simp only [leadsWith, Bool.and_eq_true, decide_eq_true_eq] at h
          simp [leadsWith, h.1, ih ss t h.2]

theorem hasSub_nil_pat : ∀ s : Str, hasSub [] s = true := by
  intro s
  cases s <;> simp [hasSub, leadsWith]

theorem hasSub_self_append : ∀ (p r : Str), hasSub p (p ++ r) = true := by
  intro p r
  cases p with
  | nil => exact hasSub_nil_pat r
  | cons c ps =>
      simp only [hasSub, Bool.or_eq_true]
      exact Or.inl (leadsWith_append_self (c :: ps) r)

theorem hasSub_extend_right : ∀ (pat s t : Str), hasSub pat s = true → hasSub pat (s ++ t) = true := by
  intro pat s
  induction s with
  | nil =>
      intro t h
      cases pat with
      | nil => exact hasSub_nil_pat t
      | cons c ps => simp [hasSub, leadsWith] at h
  | cons c ss ih =>
      intro t h
      simp only [hasSub, Bool.or_eq_true] at h ⊢
      rcases h with h | h
      · exact Or.inl (leadsWith_extend pat (c :: ss) t h)
      · exact Or.inr (ih t h)

theorem hasSub_extend_left : ∀ (pat a s : Str), hasSub pat s = true → hasSub pat (a ++ s) = true := by
  intro pat a
  induction a with
  | nil => intro s h; exact h
  | cons c as ih =>
      intro s h
      simp only [List.cons_append, hasSub, Bool.or_eq_true]
      exact Or.inr (ih s h)

theorem hasSub_joinSep : ∀ (sep pat e : Str) (ls : List Str), hasSub pat e = true → e ∈ ls →
    hasSub pat (joinSep sep ls) = true := by
  intro sep pat e ls
  induction ls with
  | nil => intro _ hm; cases hm
  | cons x xs ih =>
      intro h hm
      rcases List.mem_cons.mp hm with hm | hm
      · subst hm
        cases xs with
        | nil => exact h
        | cons y ys =>
            show hasSub pat (e ++ sep ++ joinSep sep (y :: ys)) = true
            exact hasSub_extend_right pat (e ++ sep) _ (hasSub_extend_right pat e sep h)
      · cases xs with
        | nil => cases hm
        | cons y ys =>
            show hasSub pat (x ++ sep ++ joinSep sep (y :: ys)) = true
            exact hasSub_extend_left pat (x ++ sep) _ (ih h hm)

theorem hasSub_self : ∀ p : Str, hasSub p p = true := by
  intro p
  have h := hasSub_self_append p []
  rwa [List.append_nil] at h

theorem fetch_body_line_mem (req : ParsedRequest) (b : Str) (hb : req.body = some b)
    (hbne : b ≠ []) :
    (if jsonValid b then str ("  body: JSON.stringify(") ++ b ++ str ("),")
     else str ("  body: \x27") ++ escSq b ++ str ("\x27,")) ∈ toFetchLines req := by
  have hbt : bodyTruthy req = true := by simp [bodyTruthy, hb, hbne]
  unfold toFetchLines
  by_cases hv : jsonValid b = true <;> simp [hb, hbt, hbne, hv, List.mem_append]

theorem axios_data_line_mem (req : ParsedRequest) (b : Str) (hb : req.body = some b)
    (hbne : b ≠ []) :
    (if jsonValid b then str ("  data: ") ++ b ++ str (",")
     else str ("  data: \x27") ++ escSq b ++ str ("\x27,")) ∈ toAxiosConfig req := by
  unfold toAxiosConfig
  by_cases hv : jsonValid b = true <;> simp [hb, hbne, hv, List.mem_append]

/-! ## Claim C6 -/

/-- Claim C6, amended: for every record whose body is present and
non-empty, both code generators embed the body according to JSON
validity — a body accepted by `JSON.parse` is emitted unquoted inside
the structured position (`JSON.stringify(...)` for the fetch style, a
bare `data:` value for the axios style), any other body as a
single-quoted literal with embedded quotes backslash-escaped; the two
examples of the claim are JSON-valid and JSON-invalid respectively.
An empty-string body is falsy in the source and is not emitted at all
(see the counterexample). -/
theorem claim6_amended (req : ParsedRequest) (b : Str) (hb : req.body = some b)
    (hbne : b ≠ []) :
    (jsonValid b = true →
        hasSub (str ("  body: JSON.stringify(") ++ b ++ str ("),")) (toFetch req) = true
      ∧ hasSub (str ("  data: ") ++ b ++ str (",")) (toAxios req) = true)
    ∧ (jsonValid b = false →
        hasSub (str ("  body: \x27") ++ escSq b ++ str ("\x27,")) (toFetch req) = true
      ∧ hasSub (str ("  data: \x27") ++ escSq b ++ str ("\x27,")) (toAxios req) = true)
    ∧ jsonValid (str ("\x7b\x22a\x22:1\x7d")) = true
    ∧ jsonValid (str ("notjson")) = false := by
  have hbt : bodyTruthy req = true := by simp [bodyTruthy, hb, hbne]
  have hmemF := fetch_body_line_mem req b hb hbne
  have hmemA := axios_data_line_mem req b hb hbne
  have haxios : toAxios req
      = joinSep nl ([str ("import axios from \x27axios\x27;"), []]
          ++ [str ("const \x7b data \x7d = await axios(\x7b"),
              joinSep nl (toAxiosConfig req),
              str ("\x7d);"), [],
              str ("console.log(data);")]) := by
    unfold toAxios
    rw [if_neg]
    intro hcon
    rw [hcon.2.1] at hbt
    cases hbt
  refine ⟨?_, ?_, by decide, by decide⟩
  · intro hv
    rw [if_pos hv] at hmemF hmemA
    constructor
    · exact hasSub_joinSep nl _ _ _ (hasSub_self _) hmemF
    · rw [haxios]
      refine hasSub_joinSep nl _ (joinSep nl (toAxiosConfig req)) _ ?_ (by simp)
      exact hasSub_joinSep nl _ _ _ (hasSub_self _) hmemA
  · intro hv
    rw [if_neg (by simp [hv])] at hmemF hmemA
    constructor
    · exact hasSub_joinSep nl _ _ _ (hasSub_self _) hmemF
    · rw [haxios]
      refine hasSub_joinSep nl _ (joinSep nl (toAxiosConfig req)) _ ?_ (by simp)
      exact hasSub_joinSep nl _ _ _ (hasSub_self _) hmemA

/-- Claim C6, counterexample: a record with the empty string as body —
the empty body is not valid JSON, yet neither generator emits any body
or data field at all (the body is falsy in the source), contradicting
"a body that is not valid JSON text is emitted as a single-quoted
string literal". -/
theorem claim6_counterexample :
    hasSub (str ("body:")) (toFetch { blankReq with method := str ("POST"), url := str ("u"), body := some [] }) = false
    ∧ hasSub (str ("data:")) (toAxios { blankReq with method := str ("POST"), url := str ("u"), body := some [] }) = false
    ∧ jsonValid [] = false := by decide

/-- Claim C6, witness: the amended claim at concrete records holding
the claim's two example bodies. -/
theorem claim6_witness :
    hasSub (str ("  body: JSON.stringify(") ++ str ("\x7b\x22a\x22:1\x7d") ++ str ("),"))
      (toFetch { blankReq with body := some (str ("\x7b\x22a\x22:1\x7d")) }) = true
    ∧ hasSub (str ("  data: \x27") ++ escSq (str ("notjson")) ++ str ("\x27,"))
      (toAxios { blankReq with body := some (str ("notjson")) }) = true :=
  ⟨((claim6_amended { blankReq with body := some (str ("\x7b\x22a\x22:1\x7d")) } _ rfl
      (by decide)).1 (by decide)).1,
   ((claim6_amended { blankReq with body := some (str ("notjson")) } _ rfl
      (by decide)).2.1 (by decide)).2⟩

theorem normBS_replace (rest : Str) (skip : Bool) :
    normBS ('\\' :: '\n' :: rest) skip = ' ' :: normBS rest true := rfl

theorem normBS_copy_step (c : Char) (rest : Str) (hc : c ≠ '\\') :
    normBS (c :: rest) false = c :: normBS rest false := by
  rw [normBS.eq_def]
  split
  · rename_i heq
    exact absurd heq (by simp)
  · rename_i rest2 heq
    injection heq with h1 h2
    exact absurd h1 hc
  · rename_i c2 rest2 hno heq
    injection heq with h1 h2
    subst h1
    subst h2
    simp

theorem normBS_copy (a : Str) (hbs : '\\' ∉ a) : ∀ b, normBS (a ++ b) false = a ++ normBS b false := by
  induction a with
  | nil => intro b; rfl
  | cons c a2 ih =>
      intro b
      have hc : c ≠ '\\' := fun h => hbs (by simp [h])
      rw [List.cons_append, normBS_copy_step c (a2 ++ b) hc,
        ih (fun h => hbs (by simp [h])) b]
      simp

theorem normBS_skip (c : Char) (rest : Str) (hs : isJsSpace c = true) :
    normBS (c :: rest) true = normBS rest true := by
  have hc : c ≠ '\\' := by
    intro h
    subst h
    simp [isJsSpace] at hs
  rw [normBS.eq_def]
  split
  · rename_i heq
    exact absurd heq (by simp)
  · rename_i rest2 heq
    injection heq with h1 h2
    exact absurd h1 hc
  · rename_i c2 rest2 hno heq
    injection heq with h1 h2
    subst h1
    subst h2
    simp [hs]

theorem normBS_exit (c : Char) (rest : Str) (hs : isJsSpace c = false) (hc : c ≠ '\\') :
    normBS (c :: rest) true = c :: normBS rest false := by
  rw [normBS.eq_def]
  split
  · rename_i heq
    exact absurd heq (by simp)
  · rename_i rest2 heq
    injection heq with h1 h2
    exact absurd h1 hc
  · rename_i c2 rest2 hno heq
    injection heq with h1 h2
    subst h1
    subst h2
    simp [hs]

theorem normC3 (url tail : Str) (hbs : '\\' ∉ url) :
    normBS (('c' :: 'u' :: 'r' :: 'l' :: ' ' :: '\\' :: '\n' :: ' ' :: ' ' ::[]) ++ squote :: (url ++ squote :: tail)) false
      = ('c' :: 'u' :: 'r' :: 'l' :: ' ' :: ' ' ::[]) ++ squote :: (url ++ squote :: normBS tail false) := by
  show normBS (('c' :: 'u' :: 'r' :: 'l' :: ' ' ::[]) ++ '\\' :: '\n' ::(' ' :: ' ' ::squote::(url ++ squote :: tail))) false = _
  rw [normBS_copy ('c' :: 'u' :: 'r' :: 'l' :: ' ' ::[]) (by decide)]
  rw [normBS_replace]
  rw [normBS_skip ' ' _ (by decide), normBS_skip ' ' _ (by decide)]
  rw [normBS_exit squote _ (by decide) (by decide)]
  rw [normBS_copy url hbs]
  rw [normBS_copy_step squote _ (by decide)]
  rfl

theorem dropWhile_nospace (c : Char) (rest : Str) (h : isJsSpace c = false) :
    (c :: rest).dropWhile isJsSpace = c :: rest := by
  rw [List.dropWhile_cons, if_neg (by simp [h])]

theorem jsTrim_id (c d : Char) (mid : Str)
    (hc : isJsSpace c = false) (hd : isJsSpace d = false) :
    jsTrim (c :: (mid ++ [d])) = c :: (mid ++ [d]) := by
  unfold jsTrim
  rw [dropWhile_nospace c _ hc]
  rw [List.reverse_cons, List.reverse_append, List.reverse_singleton]
  show ((d :: (mid.reverse ++ [c])).dropWhile isJsSpace).reverse = c :: (mid ++ [d])
  rw [dropWhile_nospace d _ hd]
  simp

theorem stripCurl_concrete (R : Str) :
    stripCurl (('c' :: 'u' :: 'r' :: 'l' :: ' ' :: ' ' ::[]) ++ squote :: R) = squote :: R := by
  unfold stripCurl
  rw [if_pos]
  · show (((' ' :: ' ' ::[]) ++ squote :: R).dropWhile isJsSpace) = squote :: R
    rw [List.cons_append, List.dropWhile_cons, if_pos (by decide)]
    rw [List.cons_append, List.nil_append, List.dropWhile_cons, if_pos (by decide)]
    exact dropWhile_nospace squote R (by decide)
  · simp +decide [leadsWith, str]

theorem tokAux_inS_close : ∀ (u acc rest : Str), squote ∉ u →
    tokAux (u ++ squote :: rest) acc true false false = tokAux rest (acc ++ u) false false false := by
  intro u
  induction u with
  | nil =>
      intro acc rest _
      show tokAux (squote :: rest) acc true false false = _
      simp +decide [tokAux]
  | cons c u2 ih =>
      intro acc rest hq
      have hc : c ≠ squote := fun h => hq (by simp [h])
      have hstep : tokAux ((c :: u2) ++ squote :: rest) acc true false false
          = tokAux (u2 ++ squote :: rest) (acc ++ [c]) true false false := by
        simp +decide [tokAux, hc]
      rw [hstep, ih (acc ++ [c]) rest (fun hm => hq (by simp [hm]))]
      simp

theorem leadsWith_ex : ∀ (p s : Str), leadsWith p s = true → ∃ r, s = p ++ r := by
  intro p
  induction p with
  | nil => intro s _; exact ⟨s, rfl⟩
  | cons c ps ih =>
      intro s h
      cases s with
      | nil => cases h
      | cons d ss =>
          simp only [leadsWith, Bool.and_eq_true, decide_eq_true_eq] at h
          obtain ⟨r, hr⟩ := ih ss h.2
          exact ⟨r, by rw [h.1, hr]; rfl⟩

theorem pcLoop_url_step (t : Str) (rest : List Str) (st : PState)
    (h1 : leadsWith (str ("-")) t = false)
    (h2 : leadsWith (str ("http")) t = true ∨ leadsWith (str ("/")) t = true) :
    pcLoop (t :: rest) st = pcLoop rest { st with req := { st.req with url := t } } := by
  have n1 : ¬(t = str ("-X") ∨ t = str ("--request")) := by
    rintro (rfl | rfl) <;> simp +decide at h1
  have n2 : ¬(t = str ("-H") ∨ t = str ("--header")) := by
    rintro (rfl | rfl) <;> simp +decide at h1
  have n3 : ¬(t = str ("-d") ∨ t = str ("--data") ∨ t = str ("--data-raw")
      ∨ t = str ("--data-binary")) := by
    rintro (rfl | rfl | rfl | rfl) <;> simp +decide at h1
  have n4 : ¬(t = str ("--data-urlencode")) := by
    rintro rfl
    simp +decide at h1
  have n5 : ¬(t = str ("-u") ∨ t = str ("--user")) := by
    rintro (rfl | rfl) <;> simp +decide at h1
  have n6 : ¬(t = str ("-L") ∨ t = str ("--location")) := by
    rintro (rfl | rfl) <;> simp +decide at h1
  have n7 : ¬(t = str ("-k") ∨ t = str ("--insecure")) := by
    rintro (rfl | rfl) <;> simp +decide at h1
  have n8 : ¬(t = str ("-A") ∨ t = str ("--user-agent")) := by
    rintro (rfl | rfl) <;> simp +decide at h1
  have n9 : ¬(t = str ("-b") ∨ t = str ("--cookie")) := by
    rintro (rfl | rfl) <;> simp +decide at h1
  have n10 : ¬(t = str ("-e") ∨ t = str ("--referer")) := by
    rintro (rfl | rfl) <;> simp +decide at h1
  have n11 : ¬(t = str ("--compressed")) := by
    rintro rfl
    simp +decide at h1
  rcases h2 with h2 | h2 <;>
    (rw [pcLoop.eq_def]; simp [n1, n2, n3, n4, n5, n6, n7, n8, n9, n10, n11, h1, h2])

theorem roundToksPlain (url : Str) (hq : squote ∉ url) (hne : url ≠ []) :
    tokenize (stripCurl (jsTrim (('c' :: 'u' :: 'r' :: 'l' :: ' ' :: ' ' ::[]) ++ squote :: (url ++ [squote]))))
      = [url] := by
  have htr := jsTrim_id 'c' squote ('u' :: 'r' :: 'l' :: ' ' :: ' ' ::squote::url) (by decide) (by decide)
  have heq : ('c' :: (('u' :: 'r' :: 'l' :: ' ' :: ' ' ::squote::url) ++ [squote]))
      = ('c' :: 'u' :: 'r' :: 'l' :: ' ' :: ' ' ::[]) ++ squote :: (url ++ [squote]) := by
    simp
  rw [← heq, htr, heq, stripCurl_concrete]
  have hstep : tokenize (squote :: (url ++ [squote]))
      = tokAux (url ++ squote :: []) [] true false false := by
    simp +decide [tokenize, tokAux]
  rw [hstep, tokAux_inS_close url [] [] hq]
  simp [tokAux, hne]

theorem roundToksK (url : Str) (hq : squote ∉ url) (hne : url ≠ []) :
    tokenize (stripCurl (jsTrim (('c' :: 'u' :: 'r' :: 'l' :: ' ' :: ' ' ::[])
        ++ squote :: (url ++ squote :: (' ' :: ' ' :: '-' :: 'k' ::[])))))
      = [url, str ("-k")] := by
  have htr := jsTrim_id 'c' 'k'
    ('u' :: 'r' :: 'l' :: ' ' :: ' ' ::squote::(url ++ squote:: ' ' :: ' ' :: '-' ::[])) (by decide) (by decide)
  have heq : ('c' :: (('u' :: 'r' :: 'l' :: ' ' :: ' ' ::squote::(url ++ squote:: ' ' :: ' ' :: '-' ::[])) ++ ['k']))
      = ('c' :: 'u' :: 'r' :: 'l' :: ' ' :: ' ' ::[]) ++ squote :: (url ++ squote :: (' ' :: ' ' :: '-' :: 'k' ::[])) := by
    simp [List.append_assoc]
  rw [← heq, htr, heq, stripCurl_concrete]
  have hstep : tokenize (squote :: (url ++ squote :: (' ' :: ' ' :: '-' :: 'k' ::[])))
      = tokAux (url ++ squote :: (' ' :: ' ' :: '-' :: 'k' ::[])) [] true false false := by
    simp +decide [tokenize, tokAux]
  rw [hstep, tokAux_inS_close url [] _ hq]
  have hlast : tokAux (' ' :: ' ' :: '-' :: 'k' ::[]) url false false false = [url, str ("-k")] := by
    rw [tokAux.eq_def]
    simp +decide [hne]
  rw [show ([] : Str) ++ url = url from rfl, hlast]

/-! ## Claim C3 -/

/-- Claim C3, amended: for a record with no body, no headers, no auth
and method GET whose url starts with `http` or `/` (as the parser's
bare-token URL heuristic requires) and contains neither a single quote
nor a backslash (so the generated shell quoting survives re-parsing),
feeding the generated shell command back through the command parser
recovers the same URL and method. -/
theorem claim3_amended (req : ParsedRequest)
    (hm : req.method = str ("GET")) (hh : req.headers = []) (hb : req.body = none)
    (ha : req.auth = none)
    (hu : leadsWith (str ("http")) req.url = true ∨ leadsWith (str ("/")) req.url = true)
    (hq : squote ∉ req.url) (hbs : '\\' ∉ req.url) :
    (parseCurl (toCurl req)).url = req.url
    ∧ (parseCurl (toCurl req)).method = str ("GET") := by
  have hne : req.url ≠ [] := by
    rcases hu with h | h <;> obtain ⟨r, hr⟩ := leadsWith_ex _ _ h <;> rw [hr] <;> simp [str]
  have h1 : leadsWith (str ("-")) req.url = false := by
    rcases hu with h | h <;> obtain ⟨r, hr⟩ := leadsWith_ex _ _ h <;> rw [hr] <;> rfl
  have htc : toCurl req
      = ('c' :: 'u' :: 'r' :: 'l' :: ' ' :: '\\' :: '\n' :: ' ' :: ' ' ::[])
        ++ squote :: (req.url ++ squote ::
          (if req.insecure then (' ' :: '\\' :: '\n' :: ' ' :: ' ' :: '-' :: 'k' ::[]) else [])) := by
    unfold toCurl
    rw [hm, hh, hb, ha]
    cases req.insecure <;> simp +decide [joinSep] <;> rfl
  unfold parseCurl
  cases hi : req.insecure
  · simp only [hi, Bool.false_eq_true, if_false] at htc
    rw [htc]
    unfold normBackslash
    rw [normC3 req.url [] hbs]
    rw [show normBS ([] : Str) false = ([] : Str) from rfl]
    rw [roundToksPlain req.url hq hne]
    rw [pcLoop_url_step req.url [] _ h1 hu]
    exact ⟨rfl, rfl⟩
  · simp only [hi, if_true] at htc
    rw [htc]
    unfold normBackslash
    rw [normC3 req.url _ hbs]
    rw [show normBS (' ' :: '\\' :: '\n' :: ' ' :: ' ' :: '-' :: 'k' ::[]) false = (' ' :: ' ' :: '-' :: 'k' ::[]) from rfl]
    rw [roundToksK req.url hq hne]
    rw [pcLoop_url_step req.url [str ("-k")] _ h1 hu]
    have hk : pcLoop [str ("-k")]
        { req := { blankReq with url := req.url }, explicitMethod := false }
        = { req := { blankReq with url := req.url, insecure := true }, explicitMethod := false } := by
      rw [pcLoop.eq_def]
      simp +decide [pcLoop, blankReq]
    rw [hk]
    exact ⟨rfl, rfl⟩

/-- Claim C3, counterexample: a record within the claim's scope (method
GET, no body, headers or auth) whose URL does not start with `http` or
`/` — the parser's URL heuristic rejects the quoted token and the URL
is lost in the round trip. -/
theorem claim3_counterexample :
    ({ blankReq with url := str ("example.com") } : ParsedRequest).method = str ("GET")
    ∧ ({ blankReq with url := str ("example.com") } : ParsedRequest).headers = []
    ∧ ({ blankReq with url := str ("example.com") } : ParsedRequest).body = none
    ∧ ({ blankReq with url := str ("example.com") } : ParsedRequest).auth = none
    ∧ (parseCurl (toCurl { blankReq with url := str ("example.com") })).url = []
    ∧ str ("example.com") ≠ [] := by decide

/-- Claim C3, witness: the amended round trip at a concrete record. -/
theorem claim3_witness :
    (parseCurl (toCurl { blankReq with url := str ("https://e.com") })).url = str ("https://e.com")
    ∧ (parseCurl (toCurl { blankReq with url := str ("https://e.com") })).method = str ("GET") :=
  claim3_amended { blankReq with url := str ("https://e.com") } rfl rfl rfl rfl
    (Or.inl (by decide)) (by decide) (by decide)
